import Mathlib

/-!
Verification development for a CSV-backed dashboard that ingests discussion
posts from a CSV file and produces homework/model group rollups with
optional LLM summaries.

The definitions below are shallow embeddings of the program's functions:
the CSV parsing pipeline (`parseCsv`, `buildRecord`, `toThread`,
`dedupeById`, `fetchCsvPosts`), the grouping heuristics (`groupThreads`,
`detectHomework`, `detectModels`), the summarization post-processing
(`safeParseJsonObject`, `summarizeGroupFromContent`), the retrying
chat-completion wrapper (`openaiChatCompletion`), and the process-wide
cache (`getCache`, `setCache`, `cachedCall`).

Modelling conventions:
- File reads and HTTP responses are passed in as explicit values
  (`Except` for the read outcome, an attempt-indexed response oracle for
  HTTP); randomness (UUIDs, jitter) is passed in as an oracle function.
- JavaScript strings are modelled as Lean `String`; `slice`/`trim`/
  `toLowerCase` are modelled over characters (the sources only ever use
  ASCII where these matter).
- JavaScript `Map` objects are modelled as insertion-ordered association
  lists; JS objects built by indexed assignment are modelled as
  `String → Option String` functions (later assignments win).
-/

set_option maxRecDepth 8000

/-- The double-quote character, written via its code point. -/
def quoteChar : Char := Char.ofNat 34

/-- A CSV field is a list of characters while parsing. -/
abbrev CsvField := List Char

/-- A CSV row is a list of fields. -/
abbrev CsvRow := List CsvField

/-- Mirrors `row.some((cell) => cell.length > 0)`: a row is kept iff some
cell is non-empty. -/
def csvRowKeep (row : CsvRow) : Bool := row.any (fun cell => !cell.isEmpty)

/-- Character-by-character scan of `parseCsv` from the source: state is the
accumulated rows, the current row, the current field and the `inQuotes`
flag.  A doubled quote inside quotes emits one quote; a comma outside
quotes ends the field; `\n`, `\r\n` and `\r` outside quotes end the row
(all-empty rows are dropped); the final row is flushed at end of input. -/
def parseCsvAux : List Char → List CsvRow → CsvRow → CsvField → Bool → List CsvRow
  | [], rows, row, field, _ =>
    let row' := row ++ [field]
    if csvRowKeep row' then rows ++ [row'] else rows
  | c :: rest, rows, row, field, inQuotes =>
    if c = quoteChar then
      if inQuotes then
        match rest with
        | c2 :: rest2 =>
          if c2 = quoteChar then parseCsvAux rest2 rows row (field ++ [quoteChar]) true
          else parseCsvAux (c2 :: rest2) rows row field false
        | [] => parseCsvAux [] rows row field false
      else parseCsvAux rest rows row field true
    else if c = ',' && !inQuotes then
      parseCsvAux rest rows (row ++ [field]) [] inQuotes
    else if (c = '\n' || c = '\r') && !inQuotes then
      let row' := row ++ [field]
      let rows' := if csvRowKeep row' then rows ++ [row'] else rows
      match rest with
      | c2 :: rest2 =>
        if c = '\r' && c2 = '\n' then parseCsvAux rest2 rows' [] [] inQuotes
        else parseCsvAux (c2 :: rest2) rows' [] [] inQuotes
      | [] => parseCsvAux [] rows' [] [] inQuotes
    else
      parseCsvAux rest rows row (field ++ [c]) inQuotes

/-- Rows of the parsed CSV, fields as character lists. -/
def parseCsvRows (input : String) : List CsvRow :=
  parseCsvAux input.data [] [] [] false

/-- The source's `parseCsv`: raw text to rows of field strings. -/
def parseCsv (input : String) : List (List String) :=
  (parseCsvRows input).map (fun r => r.map String.mk)

/-- Encoding of a field body for quoting: each double quote is doubled,
every other character is kept.  Used to state the round-trip property of
quoted fields. -/
def encodeQuoted (s : List Char) : List Char :=
  s.flatMap (fun c => if c = quoteChar then [quoteChar, quoteChar] else [c])

/-- A whole-input single quoted field: opening quote, encoded body,
closing quote. -/
def quoteWrap (s : List Char) : String :=
  String.mk (quoteChar :: (encodeQuoted s ++ [quoteChar]))

/-- One iteration of `buildRecord`'s loop at column `i`: skip an absent or
empty header name (`if (!key) continue`), otherwise bind that name to
`row[i] ?? ""`, overwriting any earlier binding (JS object assignment). -/
def buildRecordStep (header row : List String) (acc : String → Option String)
    (i : Nat) : String → Option String :=
  match header[i]? with
  | some key =>
    if key = "" then acc
    else fun k => if k = key then some (row.getD i "") else acc k
  | none => acc

/-- The field dictionary built by `buildRecord`'s loop over the header
indices. -/
def buildRecordFields (header row : List String) : String → Option String :=
  (List.range header.length).foldl (buildRecordStep header row) (fun _ => none)

/-- The source's `buildRecord`: `null` on an empty row, otherwise the field
dictionary. -/
def buildRecord (header row : List String) : Option (String → Option String) :=
  if row.isEmpty then none else some (buildRecordFields header row)

/-- The character set of JavaScript's `\s` / `trim` whitespace. -/
def isJsSpace (c : Char) : Bool :=
  c = ' ' || c = '\t' || c = '\n' || c = '\r' ||
  c = Char.ofNat 11 || c = Char.ofNat 12 ||
  c.toNat = 0xa0 || c.toNat = 0x1680 ||
  (0x2000 ≤ c.toNat && c.toNat ≤ 0x200a) ||
  c.toNat = 0x2028 || c.toNat = 0x2029 || c.toNat = 0x202f ||
  c.toNat = 0x205f || c.toNat = 0x3000 || c.toNat = 0xfeff

/-- JavaScript `String.prototype.trim`. -/
def jsTrim (s : String) : String :=
  String.mk (((s.data.dropWhile isJsSpace).reverse.dropWhile isJsSpace).reverse)

/-- JavaScript string truthiness for `x || y` chains: the empty string is
falsy. -/
def strTruthy (o : Option String) : Option String :=
  match o with
  | some s => if s = "" then none else some s
  | none => none

/-- The post record: the TS `Post` type together with the CSV-specific
optional extras of `CsvPost`. -/
structure Post where
  id : String
  title : String
  body : Option String := none
  author : Option String := none
  url : Option String := none
  tags : Option (List String) := none
  type : Option String := none
  model : Option String := none
  baseModel : Option String := none
  version : Option String := none
  hwNumber : Option String := none
  name : Option String := none
  titleRaw : Option String := none
  threadId : Option String := none
deriving DecidableEq, Repr

/-- The source's `toThread`: normalizes one field dictionary into a post;
`freshId` stands for the `crypto.randomUUID()` fallback used when
`thread_id` is blank. -/
def toThread (freshId : String) (record : String → Option String) : Post :=
  let titleClean := (record "title_clean").map jsTrim
  let titleRaw := (record "title_raw").map jsTrim
  let hwNumber := jsTrim ((record "hw_number").getD "")
  let model := jsTrim ((record "model").getD "")
  let baseModel := jsTrim ((record "base_model").getD "")
  let version := jsTrim ((record "version").getD "")
  let name := jsTrim ((record "name").getD "")
  let text := (record "text").getD ""
  let url := (record "url").map jsTrim
  let threadId := jsTrim ((record "thread_id").getD "")
  let tags :=
    ([if hwNumber = "" then "" else "hw:" ++ hwNumber,
      if model = "" then "" else "model:" ++ model,
      if baseModel = "" then "" else "base_model:" ++ baseModel,
      if version = "" then "" else "version:" ++ version]).filter
      (fun t => decide (t ≠ ""))
  { id := if threadId = "" then freshId else threadId
    title := ((strTruthy titleClean).orElse (fun _ => strTruthy titleRaw)).getD "Untitled"
    body := some text
    type := some "special_participation"
    tags := some tags
    author := some (if name = "" then "Unknown author" else name)
    url := strTruthy url
    model := some model
    baseModel := some baseModel
    version := some version
    hwNumber := some hwNumber
    name := some name
    titleRaw := titleRaw
    threadId := some threadId }

/-- Accumulator form of `dedupeById`: `seen` is the set of ids already
emitted. -/
def dedupeByIdAux (seen : List String) : List Post → List Post
  | [] => []
  | t :: rest =>
    if t.id ∈ seen then dedupeByIdAux seen rest
    else t :: dedupeByIdAux (t.id :: seen) rest

/-- The source's `dedupeById`: keep the first post for each id, in order. -/
def dedupeById (threads : List Post) : List Post :=
  dedupeByIdAux [] threads

/-- Result record of `fetchCsvPosts`. -/
structure FetchResult where
  threads : List Post
  source : String := "csv"
  warning : Option String := none
deriving DecidableEq, Repr

/-- The source's `fetchCsvPosts`.  The file-system read is passed in as an
`Except` value (`.error msg` for any I/O failure, carrying the error
message); `freshIds` supplies the `crypto.randomUUID()` values, indexed by
record position.  The function is total: every outcome is returned as a
`FetchResult`, never as a thrown error. -/
def fetchCsvPosts (readResult : Except String String) (freshIds : Nat → String) :
    FetchResult :=
  match readResult with
  | .error msg => { threads := [], warning := some ("Failed to read CSV (" ++ msg ++ ").") }
  | .ok csv =>
    match parseCsv csv with
    | [] => { threads := [], warning := some "CSV file is empty." }
    | header :: rest =>
      let records := rest.map (fun row => buildRecord header row)
      let threads :=
        dedupeById ((records.filterMap id).enum.map
          (fun p => toThread (freshIds p.1) p.2))
      { threads := threads }

/-- ASCII lowercasing, modelling `String.prototype.toLowerCase` (the data
this program lowercases is ASCII). -/
def toLowerStr (s : String) : String := String.mk (s.data.map Char.toLower)

/-- JavaScript `String.prototype.startsWith`. -/
def startsWithStr (s pre : String) : Bool := pre.data.isPrefixOf s.data

/-- Splitting scan for `String.prototype.split` with a one-character
separator (the program only splits on a colon). -/
def splitOnCharAux (sep : Char) : List Char → List Char → List String
  | [], acc => [String.mk acc.reverse]
  | c :: rest, acc =>
    if c = sep then String.mk acc.reverse :: splitOnCharAux sep rest []
    else splitOnCharAux sep rest (c :: acc)

/-- JavaScript `String.prototype.split` with a one-character separator. -/
def splitOnChar (sep : Char) (s : String) : List String :=
  splitOnCharAux sep s.data []

/-- JavaScript regex word characters `\w` = `[A-Za-z0-9_]`. -/
def isWordChar (c : Char) : Bool := c.isAlphanum || c = '_'

/-- Word status of an optional character; `none` (an input edge) counts as
non-word. -/
def isWordOpt (o : Option Char) : Bool :=
  match o with
  | some c => isWordChar c
  | none => false

/-- A word boundary `\b` holds before a word character iff the previous
character is absent or a non-word character. -/
def boundaryOk (prev : Option Char) : Bool :=
  match prev with
  | none => true
  | some c => !isWordChar c

/-- Matches the trailing `([0-9]{1,2})\b` of the homework patterns against
the start of `cs`: a greedy run of 1 or 2 digits followed by a word
boundary; returns the captured digits. -/
def digits12At (cs : List Char) : Option String :=
  let run := cs.takeWhile Char.isDigit
  let rest := cs.drop run.length
  if (run.length = 1 || run.length = 2) && !isWordOpt rest.head? then
    some (String.mk run)
  else none

/-- The separator class `[:\s_\-]` of the pattern `hw[:\s_\-]*(\d{1,2})`. -/
def hwSepChar (c : Char) : Bool := c = ':' || isJsSpace c || c = '_' || c = '-'

/-- Attempts one homework pattern at a single position: word boundary, one
of the alternative literals (in greedy order), a run of separator
characters, then 1-2 digits ending at a word boundary. -/
def patternAt (lits : List (List Char)) (isSep : Char → Bool)
    (prev : Option Char) (cs : List Char) : Option String :=
  if boundaryOk prev then
    lits.findSome? (fun lit =>
      if lit.isPrefixOf cs then digits12At ((cs.drop lit.length).dropWhile isSep)
      else none)
  else none

/-- Leftmost-match scan: try the position matcher at every position, in
order, threading the previous character for word-boundary tests. -/
def scanFirst (f : Option Char → List Char → Option String) :
    Option Char → List Char → Option String
  | prev, [] => f prev []
  | prev, c :: rest =>
    match f prev (c :: rest) with
    | some r => some r
    | none => scanFirst f (some c) rest

/-- The source's `detectHomework`: lowercase the text, then try the
patterns `\bhw\s*(\d{1,2})\b`, `\bhw[:\s_\-]*(\d{1,2})\b`,
`\bhomework\s*(\d{1,2})\b`, `\bassignment\s*(\d{1,2})\b`,
`\bproj(?:ect)?\s*(\d{1,2})\b` in that order, returning the first
pattern's leftmost capture. -/
def detectHomework (input : String) : Option String :=
  let cs := (toLowerStr input).data
  ([scanFirst (patternAt ["hw".data] isJsSpace) none cs,
    scanFirst (patternAt ["hw".data] hwSepChar) none cs,
    scanFirst (patternAt ["homework".data] isJsSpace) none cs,
    scanFirst (patternAt ["assignment".data] isJsSpace) none cs,
    scanFirst (patternAt ["project".data, "proj".data] isJsSpace) none cs]).findSome? id

/-- Drops a literal from the front of `cs`, if present. -/
def litAt (lit : List Char) (cs : List Char) : Option (List Char) :=
  if lit.isPrefixOf cs then some (cs.drop lit.length) else none

/-- A trailing word boundary after a literal ending in a word character:
the next character must be absent or non-word. -/
def wordEndOk (cs : List Char) : Bool := !isWordOpt cs.head?

/-- Position matcher for a plain `\bWORD\b` pattern. -/
def simpleWordAt (lit : List Char) (prev : Option Char) (cs : List Char) : Bool :=
  boundaryOk prev && lit.isPrefixOf cs && wordEndOk (cs.drop lit.length)

/-- Boolean leftmost scan for `RegExp.prototype.test`-style matchers. -/
def scanTestB (f : Option Char → List Char → Bool) :
    Option Char → List Char → Bool
  | prev, [] => f prev []
  | prev, c :: rest => f prev (c :: rest) || scanTestB f (some c) rest

/-- The optional separator class `[-\s]` used between model-name parts. -/
def optSepChar (c : Char) : Bool := c = '-' || isJsSpace c

/-- Continues a match after an optional `[-\s]?` separator (both branches
of the optional are tried). -/
def withOptSep (tail : List Char → Bool) (r : List Char) : Bool :=
  tail r ||
    (match r with
     | c :: r2 => optSepChar c && tail r2
     | [] => false)

/-- Trailing `4o\b` of the `gpt-4o` pattern. -/
def tail4oAt (r : List Char) : Bool :=
  "4o".data.isPrefixOf r && wordEndOk (r.drop 2)

/-- Position matcher for `\bgpt[-\s]?4o\b`. -/
def gpt4oAt (prev : Option Char) (cs : List Char) : Bool :=
  boundaryOk prev &&
    (match litAt "gpt".data cs with
     | some r => withOptSep tail4oAt r
     | none => false)

/-- Trailing `mini\b` of the `gpt-4o-mini` pattern. -/
def tailMiniAt (r : List Char) : Bool :=
  "mini".data.isPrefixOf r && wordEndOk (r.drop 4)

/-- Trailing `4o[-\s]?mini\b` of the `gpt-4o-mini` pattern. -/
def tail4oMiniAt (r : List Char) : Bool :=
  match litAt "4o".data r with
  | some r2 => withOptSep tailMiniAt r2
  | none => false

/-- Position matcher for `\bgpt[-\s]?4o[-\s]?mini\b`. -/
def gpt4oMiniAt (prev : Option Char) (cs : List Char) : Bool :=
  boundaryOk prev &&
    (match litAt "gpt".data cs with
     | some r => withOptSep tail4oMiniAt r
     | none => false)

/-- Position matcher for `\bo1\b`. -/
def o1At (prev : Option Char) (cs : List Char) : Bool :=
  boundaryOk prev && "o1".data.isPrefixOf cs && wordEndOk (cs.drop 2)

/-- Position matcher for `\bo1[-\s]SUFFIX\b` (the `o1-preview` / `o1-mini`
patterns, with one mandatory separator character). -/
def o1SuffixAt (suffix : List Char) (prev : Option Char) (cs : List Char) : Bool :=
  boundaryOk prev &&
    (match litAt "o1".data cs with
     | some (c :: r2) =>
       optSepChar c && suffix.isPrefixOf r2 && wordEndOk (r2.drop suffix.length)
     | some [] => false
     | none => false)

/-- Trailing `llama\b` of the `meta-llama` pattern. -/
def tailLlamaAt (r : List Char) : Bool :=
  "llama".data.isPrefixOf r && wordEndOk (r.drop 5)

/-- Position matcher for `\bmeta[-\s]?llama\b`. -/
def metaLlamaAt (prev : Option Char) (cs : List Char) : Bool :=
  boundaryOk prev &&
    (match litAt "meta".data cs with
     | some r => withOptSep tailLlamaAt r
     | none => false)

/-- Tests whether any of a family's patterns matches anywhere in the
text. -/
def testPats (pats : List (Option Char → List Char → Bool)) (cs : List Char) : Bool :=
  pats.any (fun p => scanTestB p none cs)

/-- The capture class `[a-z0-9\.\-\_]` (with the `i` flag) of the generic
`model: xyz` capture. -/
def modelTokenChar (c : Char) : Bool :=
  c.isAlpha || c.isDigit || c = '.' || c = '-' || c = '_'

/-- Backtracking for the trailing `\b` after the greedy token capture:
starting from the full run (given reversed), drop trailing characters
until a word boundary holds between the last kept character and the next
one. -/
def shrinkToken : List Char → Option Char → Option String
  | [], _ => none
  | c :: rs, next =>
    if isWordChar c != isWordOpt next then some (String.mk (c :: rs).reverse)
    else shrinkToken rs (some c)

/-- Captures `([a-z0-9\.\-\_]+)\b` at the start of `cs`. -/
def captureTokenAt (cs : List Char) : Option String :=
  let run := cs.takeWhile modelTokenChar
  shrinkToken run.reverse ((cs.drop run.length).head?)

/-- Position matcher for the generic `\bmodel\s*[:=]\s*([a-z0-9\.\-\_]+)\b`
capture. -/
def modelLineAt (prev : Option Char) (cs : List Char) : Option String :=
  if boundaryOk prev then
    match litAt "model".data cs with
    | some r =>
      match r.dropWhile isJsSpace with
      | c :: r3 =>
        if c = ':' || c = '=' then captureTokenAt (r3.dropWhile isJsSpace)
        else none
      | [] => none
    | none => none
  else none

/-- The source's `detectModels`: lowercase the text, test the fixed
dictionary of model-name patterns in order, then append the generic
`model: xyz` capture if it is new; returns the hit keys in insertion
order. -/
def detectModels (input : String) : List String :=
  let cs := (toLowerStr input).data
  let dict : List (String × Bool) :=
    [("gpt-4o", testPats [gpt4oAt] cs),
     ("gpt-4o-mini", testPats [gpt4oMiniAt] cs),
     ("o1", testPats [o1At, o1SuffixAt "preview".data, o1SuffixAt "mini".data] cs),
     ("claude", testPats [simpleWordAt "claude".data, simpleWordAt "anthropic".data] cs),
     ("gemini", testPats [simpleWordAt "gemini".data] cs),
     ("llama", testPats [simpleWordAt "llama".data, metaLlamaAt] cs),
     ("mistral", testPats [simpleWordAt "mistral".data] cs),
     ("deepseek", testPats [simpleWordAt "deepseek".data] cs),
     ("qwen", testPats [simpleWordAt "qwen".data] cs),
     ("grok", testPats [simpleWordAt "grok".data] cs)]
  let hits := (dict.filter (fun e => e.2)).map (fun e => e.1)
  match scanFirst modelLineAt none cs with
  | some m => if m ∈ hits then hits else hits ++ [m]
  | none => hits

/-- The combined text `groupThreads` scans: title, body and tags joined. -/
def textOf (p : Post) : String :=
  p.title ++ "\n" ++ (p.body.getD "") ++ "\n" ++
    String.intercalate " " (p.tags.getD [])

/-- Models `tag.split(":")[1]?.trim()`. -/
def tagValue (t : String) : Option String :=
  ((splitOnChar ':' t).get? 1).map jsTrim

/-- The homework key value chosen for a post: the first `hw:`-prefixed
tag's value if such a tag exists (the text patterns are not consulted),
otherwise `detectHomework` over the combined text; empty values are falsy
and produce no key. -/
def hwKeyValue (p : Post) : Option String :=
  match (p.tags.getD []).find? (fun t => startsWithStr (toLowerStr t) "hw:") with
  | some t =>
    match tagValue t with
    | some w => if w = "" then none else some w
    | none => none
  | none =>
    match detectHomework (textOf p) with
    | some d => if d = "" then none else some d
    | none => none

/-- The source's `pushMapUniqueById` over an insertion-ordered map: create
the bucket if absent, otherwise append the post unless a post with the
same id is already in the bucket. -/
def pushMapUniqueById (m : List (String × List Post)) (key : String) (p : Post) :
    List (String × List Post) :=
  match m.find? (fun e => e.1 == key) with
  | none => m ++ [(key, [p])]
  | some _ =>
    m.map (fun e =>
      if e.1 = key then
        (e.1, if e.2.any (fun q => q.id == p.id) then e.2 else e.2 ++ [p])
      else e)

/-- State of `groupThreads`' loop: the homework and model maps. -/
structure GroupState where
  hw : List (String × List Post)
  m : List (String × List Post)
deriving DecidableEq, Repr

/-- One iteration of `groupThreads`' loop over a post: homework bucketing
by `hwKeyValue`, model bucketing by the first `base_model:` tag when
present (falsy values push nothing), otherwise by every `detectModels`
hit. -/
def groupStep (st : GroupState) (p : Post) : GroupState :=
  let hwG :=
    match hwKeyValue p with
    | some v => pushMapUniqueById st.hw ("hw:" ++ v) p
    | none => st.hw
  let mG :=
    match (p.tags.getD []).find? (fun t => startsWithStr (toLowerStr t) "base_model:") with
    | some t =>
      match tagValue t with
      | some b => if b = "" then st.m else pushMapUniqueById st.m ("model:" ++ b) p
      | none => st.m
    | none =>
      (detectModels (textOf p)).foldl
        (fun m mod => pushMapUniqueById m ("model:" ++ mod) p) st.m
  ⟨hwG, mG⟩

/-- Result of `groupThreads`. -/
structure GroupResult where
  homeworkGroups : List (String × List Post)
  modelGroups : List (String × List Post)
deriving DecidableEq, Repr

/-- The source's `groupThreads`: scan all posts, then delete every model
bucket with fewer than 2 members; homework buckets are kept at any
size. -/
def groupThreads (threads : List Post) : GroupResult :=
  let st := threads.foldl groupStep ⟨[], []⟩
  ⟨st.hw, st.m.filter (fun e => decide (2 ≤ e.2.length))⟩

/-- The opening curly brace character, via its code point. -/
def braceOpen : Char := Char.ofNat 123

/-- The closing curly brace character, via its code point. -/
def braceClose : Char := Char.ofNat 125

/-- JSON values as produced by `JSON.parse`.  Numbers keep their source
lexeme (no claim in this development inspects numeric fields, and the
program only reads string fields out of parsed values). -/
inductive Json where
  | null
  | bool (b : Bool)
  | num (raw : String)
  | str (s : String)
  | arr (elems : List Json)
  | obj (fields : List (String × Json))

/-- JSON whitespace. -/
def jsonWs (c : Char) : Bool := c = ' ' || c = '\t' || c = '\n' || c = '\r'

/-- Skips JSON whitespace. -/
def skipWs (cs : List Char) : List Char := cs.dropWhile jsonWs

/-- Hex digit value. -/
def parseHexDigit (c : Char) : Option Nat :=
  if c.isDigit then some (c.toNat - 48)
  else if 'a' ≤ c && c ≤ 'f' then some (c.toNat - 87)
  else if 'A' ≤ c && c ≤ 'F' then some (c.toNat - 55)
  else none

/-- Single-character JSON string escapes. -/
def escChar (e : Char) : Option Char :=
  if e = quoteChar then some quoteChar
  else if e = '\\' then some '\\'
  else if e = '/' then some '/'
  else if e = 'b' then some (Char.ofNat 8)
  else if e = 'f' then some (Char.ofNat 12)
  else if e = 'n' then some '\n'
  else if e = 'r' then some '\r'
  else if e = 't' then some '\t'
  else none

/-- Parses a JSON string body after the opening quote, returning the
decoded characters and the input after the closing quote.  Raw control
characters are rejected, as `JSON.parse` does. -/
def parseStringBody : List Char → Option (List Char × List Char)
  | [] => none
  | c :: rest =>
    if c = quoteChar then some ([], rest)
    else if c = '\\' then
      match rest with
      | [] => none
      | e :: rest2 =>
        if e = 'u' then
          match rest2 with
          | h1 :: h2 :: h3 :: h4 :: rest3 =>
            match parseHexDigit h1, parseHexDigit h2, parseHexDigit h3, parseHexDigit h4 with
            | some a, some b, some c4, some d =>
              (parseStringBody rest3).map
                (fun pr => (Char.ofNat (a * 4096 + b * 256 + c4 * 16 + d) :: pr.1, pr.2))
            | _, _, _, _ => none
          | _ => none
        else
          match escChar e with
          | some ch => (parseStringBody rest2).map (fun pr => (ch :: pr.1, pr.2))
          | none => none
    else if c.toNat < 32 then none
    else (parseStringBody rest).map (fun pr => (c :: pr.1, pr.2))

/-- Parses the fraction part of a JSON number (empty if absent). -/
def parseFracPart (cs : List Char) : Option (List Char × List Char) :=
  match cs with
  | c :: r =>
    if c = '.' then
      let fr := r.takeWhile Char.isDigit
      if fr.isEmpty then none else some ('.' :: fr, r.drop fr.length)
    else some ([], cs)
  | [] => some ([], [])

/-- Parses the exponent part of a JSON number (empty if absent). -/
def parseExpPart (cs : List Char) : Option (List Char × List Char) :=
  match cs with
  | c :: r =>
    if c = 'e' || c = 'E' then
      let (sign, r2) :=
        match r with
        | s :: r2 => if s = '+' || s = '-' then ([c, s], r2) else ([c], r)
        | [] => ([c], r)
      let ds := r2.takeWhile Char.isDigit
      if ds.isEmpty then none else some (sign ++ ds, r2.drop ds.length)
    else some ([], cs)
  | [] => some ([], [])

/-- Lexes a JSON number, returning its lexeme. -/
def parseNumber (cs : List Char) : Option (String × List Char) :=
  let (negPart, cs1) :=
    match cs with
    | c :: r => if c = '-' then (['-'], r) else (([] : List Char), cs)
    | [] => (([] : List Char), cs)
  match cs1 with
  | [] => none
  | d :: _ =>
    if !d.isDigit then none
    else
      let intRun := cs1.takeWhile Char.isDigit
      if d = '0' && intRun.length > 1 then none
      else
        match parseFracPart (cs1.drop intRun.length) with
        | some (frac, cs2) =>
          match parseExpPart cs2 with
          | some (ex, cs3) => some (String.mk (negPart ++ intRun ++ frac ++ ex), cs3)
          | none => none
        | none => none

mutual

/-- Fuel-indexed recursive-descent JSON value parser (the fuel only bounds
nesting; it is chosen large enough at the top level). -/
def parseJsonValue : Nat → List Char → Option (Json × List Char)
  | 0, _ => none
  | fuel + 1, cs =>
    match skipWs cs with
    | [] => none
    | c :: rest =>
      if c = quoteChar then
        (parseStringBody rest).map (fun pr => (Json.str (String.mk pr.1), pr.2))
      else if c = '[' then
        match skipWs rest with
        | c2 :: rest2 =>
          if c2 = ']' then some (Json.arr [], rest2)
          else
            match parseJsonValue fuel (c2 :: rest2) with
            | some (v, r) =>
              match parseJsonItems fuel r with
              | some (vs, r2) => some (Json.arr (v :: vs), r2)
              | none => none
            | none => none
        | [] => none
      else if c = braceOpen then
        match skipWs rest with
        | c2 :: rest2 =>
          if c2 = braceClose then some (Json.obj [], rest2)
          else
            match parseJsonField fuel (c2 :: rest2) with
            | some (kv, r) =>
              match parseJsonFieldsRest fuel r with
              | some (kvs, r2) => some (Json.obj (kv :: kvs), r2)
              | none => none
            | none => none
        | [] => none
      else if "true".data.isPrefixOf (c :: rest) then
        some (Json.bool true, (c :: rest).drop 4)
      else if "false".data.isPrefixOf (c :: rest) then
        some (Json.bool false, (c :: rest).drop 5)
      else if "null".data.isPrefixOf (c :: rest) then
        some (Json.null, (c :: rest).drop 4)
      else
        match parseNumber (c :: rest) with
        | some (rawNum, r) => some (Json.num rawNum, r)
        | none => none

/-- Parses the remaining `, value`* `]` items of an array. -/
def parseJsonItems : Nat → List Char → Option (List Json × List Char)
  | 0, _ => none
  | fuel + 1, cs =>
    match skipWs cs with
    | c :: rest =>
      if c = ']' then some ([], rest)
      else if c = ',' then
        match parseJsonValue fuel rest with
        | some (v, r) =>
          match parseJsonItems fuel r with
          | some (vs, r2) => some (v :: vs, r2)
          | none => none
        | none => none
      else none
    | [] => none

/-- Parses one `"key": value` member of an object. -/
def parseJsonField : Nat → List Char → Option ((String × Json) × List Char)
  | 0, _ => none
  | fuel + 1, cs =>
    match skipWs cs with
    | c :: rest =>
      if c = quoteChar then
        match parseStringBody rest with
        | some (key, r) =>
          match skipWs r with
          | c2 :: r2 =>
            if c2 = ':' then
              match parseJsonValue fuel r2 with
              | some (v, r3) => some ((String.mk key, v), r3)
              | none => none
            else none
          | [] => none
        | none => none
      else none
    | [] => none

/-- Parses the remaining `, "key": value`* and closing brace of an
object. -/
def parseJsonFieldsRest : Nat → List Char → Option (List (String × Json) × List Char)
  | 0, _ => none
  | fuel + 1, cs =>
    match skipWs cs with
    | c :: rest =>
      if c = braceClose then some ([], rest)
      else if c = ',' then
        match parseJsonField fuel rest with
        | some (kv, r) =>
          match parseJsonFieldsRest fuel r with
          | some (kvs, r2) => some (kv :: kvs, r2)
          | none => none
        | none => none
      else none
    | [] => none

end

/-- Models `JSON.parse` over the modelled value type: one value, optional
surrounding whitespace, nothing else; `none` models a thrown
`SyntaxError`. -/
def jsonParse (s : String) : Option Json :=
  match parseJsonValue (4 * s.data.length + 8) s.data with
  | some (v, rest) => if (skipWs rest).isEmpty then some v else none
  | none => none

/-- The source's `safeParseJsonObject`: slice from the first opening brace
to the last closing brace and attempt `JSON.parse`; `null` when the
indices are missing or inverted or parsing fails. -/
def safeParseJsonObject (input : String) : Option Json :=
  let cs := input.data
  match cs.findIdx? (fun c => c == braceOpen),
        cs.reverse.findIdx? (fun c => c == braceClose) with
  | some st, some er =>
    let en := cs.length - 1 - er
    if en ≤ st then none
    else jsonParse (String.mk ((cs.drop st).take (en - st + 1)))
  | _, _ => none

/-- Walks characters counting brace depth, returning the span that closes
the first opening brace. -/
def balanceScan : List Char → Nat → List Char → Option (List Char)
  | [], _, _ => none
  | c :: rest, depth, acc =>
    if c = braceOpen then balanceScan rest (depth + 1) (acc ++ [c])
    else if c = braceClose then
      if depth = 1 then some (acc ++ [c])
      else if depth = 0 then none
      else balanceScan rest (depth - 1) (acc ++ [c])
    else balanceScan rest depth (acc ++ [c])

/-- Modelled from the spec: the first balanced `\x7b...\x7d` span of the
text, as the claim describes the extraction step (the source instead
slices from the first opening brace to the last closing brace); defined
only to compare against `safeParseJsonObject`. -/
def firstBalancedObjectSpan (s : String) : Option String :=
  (balanceScan (s.data.dropWhile (fun c => !(c == braceOpen))) 0 []).map String.mk

/-- Modelled from the spec: decoding via the first balanced span, for
comparison with the source's `safeParseJsonObject`. -/
def safeParseJsonObjectSpec (s : String) : Option Json :=
  (firstBalancedObjectSpan s).bind jsonParse

mutual

/-- JavaScript `String(v)` over the modelled JSON values (numbers render
by their lexeme; the program never stringifies numeric fields in any
claim's scope). -/
def jsToString : Json → String
  | .null => "null"
  | .bool b => if b then "true" else "false"
  | .num raw => raw
  | .str s => s
  | .arr xs => String.intercalate "," (jsToStringElems xs)
  | .obj _ => "[object Object]"

/-- Array elements under `String(...)`: `null` renders empty. -/
def jsToStringElems : List Json → List String
  | [] => []
  | .null :: xs => "" :: jsToStringElems xs
  | x :: xs => jsToString x :: jsToStringElems xs

end

/-- Object field lookup with JS semantics: the last assignment to a key
wins (`JSON.parse` keeps the last duplicate). -/
def objLookupLast (kvs : List (String × Json)) (k : String) : Option Json :=
  (kvs.reverse.find? (fun e => e.1 == k)).map (fun e => e.2)

/-- Property access `parsed?.key` when the parsed value may be anything:
only objects yield fields. -/
def jGetField (j : Option Json) (k : String) : Option Json :=
  match j with
  | some (Json.obj kvs) => objLookupLast kvs k
  | _ => none

/-- The capped, truncated view of a bucket's posts that `summarizeGroup`
sends to the model: first 28 posts, bodies cut to 700 characters. -/
structure SampleThread where
  id : String
  title : String
  body : String
  tags : List String
  author : String
  type : String
deriving DecidableEq, Repr

/-- Builds the sample sent to the model for one bucket. -/
def sampleOf (items : List Post) : List SampleThread :=
  (items.take 28).map (fun t =>
    ⟨t.id, t.title, (t.body.getD "").take 700, t.tags.getD [],
      t.author.getD "", t.type.getD ""⟩)

/-- One `{id, title, takeaway}` entry of a group summary. -/
structure GroupPostSummary where
  id : String
  title : String
  takeaway : String
deriving DecidableEq, Repr

/-- The `GroupSummary` record of the source. -/
structure GroupSummary where
  key : String
  label : String
  count : Nat
  overview : String
  posts : List GroupPostSummary
deriving DecidableEq, Repr

/-- The post entries decoded from the model's JSON output: map each array
element to `{id, title, takeaway}` (`String(record.id ?? "")`, string
fields or empty) and keep only entries whose three fields are all
non-empty. -/
def decodedPostsOf (parsed : Option Json) : List GroupPostSummary :=
  let postsRaw :=
    match jGetField parsed "posts" with
    | some (Json.arr xs) => xs
    | _ => []
  (postsRaw.map (fun p =>
    let record := match p with | Json.obj kvs => kvs | _ => []
    { id :=
        match objLookupLast record "id" with
        | some Json.null => ""
        | some v => jsToString v
        | none => ""
      title :=
        match objLookupLast record "title" with
        | some (Json.str s) => s
        | _ => ""
      takeaway :=
        match objLookupLast record "takeaway" with
        | some (Json.str s) => s
        | _ => "" })).filter
    (fun q => decide (q.id ≠ "") && decide (q.title ≠ "") && decide (q.takeaway ≠ ""))

/-- The decoded posts for a raw response text. -/
def decodedPosts (content : String) : List GroupPostSummary :=
  decodedPostsOf (safeParseJsonObject content)

/-- The response-processing core of the source's `summarizeGroup`, as a
function of the model's response text: decode defensively, patch every
sample post whose id is missing from the decoded output back in with a
heuristic takeaway (first 120 characters of the body, or a placeholder),
and truncate to the sample size.  The surrounding remote call and cache
interaction are modelled separately (`openaiChatCompletion`,
`cachedCall`). -/
def summarizeGroupFromContent (label key : String) (items : List Post)
    (content : String) : GroupSummary :=
  let sample := sampleOf items
  let parsed := safeParseJsonObject content
  let overview :=
    match jGetField parsed "overview" with
    | some (Json.str s) => s
    | _ => ""
  let posts := decodedPostsOf parsed
  let seen := posts.map (fun q => q.id)
  let patched :=
    posts ++
      ((sample.filter (fun t => decide (t.id ∉ seen))).map
        (fun t =>
          { id := t.id, title := t.title,
            takeaway := (if t.body = "" then "No body." else t.body).take 120 }))
  { key := key
    label := label
    count := items.length
    overview :=
      if overview = "" then "AI summary unavailable for " ++ label ++ "." else overview
    posts := patched.take sample.length }

/-- An HTTP response as the retry loop observes it: status, the numeric
value (in seconds) of a non-empty `retry-after` header if any, the
`choices[0].message.content` text of a successful JSON body, and the raw
body text used in error messages. -/
structure HttpResponse where
  status : Nat
  retryAfter : Option Int := none
  content : Option String := none
  bodyText : String := ""
deriving DecidableEq, Repr

/-- `response.ok` of `fetch`: status in 200-299. -/
def respOk (r : HttpResponse) : Bool := 200 ≤ r.status && r.status < 300

/-- The retry condition of the source: 429 or any 5xx status. -/
def retryableStatus (s : Nat) : Bool := s == 429 || (500 ≤ s && s ≤ 599)

/-- `retryAfter ? Number(retryAfter) * 1000 : 0` with the header modelled
by its numeric value in seconds. -/
def retryAfterMs (r : HttpResponse) : Int :=
  match r.retryAfter with
  | some s => s * 1000
  | none => 0

/-- `Math.min(30_000, 600 * 2 ** (attempt - 1) + jitter(250))` for the
given attempt and jitter draw. -/
def backoffMs (attempt : Nat) (jit : Nat) : Int :=
  min 30000 (600 * 2 ^ (attempt - 1) + (jit : Int))

/-- The duration slept before the retry following `attempt`:
`Math.max(retryAfterMs, backoffMs)`. -/
def sleepFor (r : HttpResponse) (attempt : Nat) (jit : Nat) : Int :=
  max (retryAfterMs r) (backoffMs attempt jit)

/-- Observable trace of one `openaiChatCompletion` call: the outcome
(`.error` models a thrown exception), the list of sleep durations, and
how many HTTP requests were issued. -/
structure ChatRun where
  outcome : Except String String
  sleeps : List Int
  requests : Nat
deriving Repr

/-- The retry loop of `openaiChatCompletion`: `attempt` is the 1-based
attempt counter, `remaining` the attempts left.  A 2xx response returns
its content (or throws on missing content); 429/5xx sleeps and retries;
any other status throws immediately; running out of attempts throws the
exhaustion error. -/
def chatAux (responses : Nat → HttpResponse) (jit : Nat → Nat) :
    Nat → Nat → ChatRun
  | _, 0 => ⟨.error "OpenAI retries exhausted (429/5xx).", [], 0⟩
  | attempt, remaining + 1 =>
    let r := responses attempt
    if respOk r then
      match r.content with
      | some c => ⟨.ok c, [], 1⟩
      | none => ⟨.error "OpenAI response missing content", [], 1⟩
    else if retryableStatus r.status then
      let rest := chatAux responses jit (attempt + 1) remaining
      ⟨rest.outcome, sleepFor r attempt (jit attempt) :: rest.sleeps, rest.requests + 1⟩
    else
      ⟨.error ("OpenAI responded with " ++ toString r.status ++
        (if r.bodyText = "" then "" else ": " ++ r.bodyText.take 140)), [], 1⟩

/-- `Math.max(1, Number(process.env.AI_OPENAI_MAX_RETRIES ?? 5))` with the
environment value modelled by its numeric value when set. -/
def resolveMaxAttempts (env : Option Int) : Int := max 1 (env.getD 5)

/-- The source's `openaiChatCompletion` retry wrapper, as a function of
the attempt-indexed response oracle and the jitter oracle
(`jit n` models the `Math.floor(Math.random() * 250)` draw of attempt
`n`, hence `jit n < 250`). -/
def openaiChatCompletion (env : Option Int) (responses : Nat → HttpResponse)
    (jit : Nat → Nat) : ChatRun :=
  chatAux responses jit 1 (resolveMaxAttempts env).toNat

/-- The source's `getCache` over the process-wide map, modelled as an
insertion-ordered association list. -/
def getCache {V : Type} (cache : List (String × V)) (key : String) : Option V :=
  (cache.find? (fun e => e.1 == key)).map (fun e => e.2)

/-- The source's `setCache`: `Map.set` replaces in place or appends. -/
def setCache {V : Type} (cache : List (String × V)) (key : String) (v : V) :
    List (String × V) :=
  if cache.any (fun e => e.1 == key) then
    cache.map (fun e => if e.1 = key then (e.1, v) else e)
  else cache ++ [(key, v)]

/-- Truncation of an unbounded natural to a 32-bit word. -/
def w32 (n : Nat) : Nat := n % 4294967296

/-- Right rotation of a 32-bit word by `n` bits. -/
def rotr32 (n w : Nat) : Nat := w32 ((w >>> n) ||| (w <<< (32 - n)))

/-- UTF-8 encoding of one code point, as `crypto.update` applies to the
serialized input string. -/
def utf8Bytes (c : Char) : List Nat :=
  let n := c.toNat
  if n < 0x80 then [n]
  else if n < 0x800 then [0xc0 ||| (n >>> 6), 0x80 ||| (n &&& 0x3f)]
  else if n < 0x10000 then
    [0xe0 ||| (n >>> 12), 0x80 ||| ((n >>> 6) &&& 0x3f), 0x80 ||| (n &&& 0x3f)]
  else
    [0xf0 ||| (n >>> 18), 0x80 ||| ((n >>> 12) &&& 0x3f),
      0x80 ||| ((n >>> 6) &&& 0x3f), 0x80 ||| (n &&& 0x3f)]

/-- UTF-8 bytes of a string. -/
def stringUtf8 (s : String) : List Nat := s.data.flatMap utf8Bytes

/-- SHA-256 message padding: a 0x80 byte, zeros to 56 mod 64, then the
bit length as 8 big-endian bytes. -/
def shaPad (msg : List Nat) : List Nat :=
  let len := msg.length
  let bitLen := len * 8
  let zeros := (64 + 56 - (len + 1) % 64) % 64
  msg ++ [0x80] ++ List.replicate zeros 0 ++
    [(bitLen >>> 56) &&& 0xff, (bitLen >>> 48) &&& 0xff, (bitLen >>> 40) &&& 0xff,
      (bitLen >>> 32) &&& 0xff, (bitLen >>> 24) &&& 0xff, (bitLen >>> 16) &&& 0xff,
      (bitLen >>> 8) &&& 0xff, bitLen &&& 0xff]

/-- Big-endian 32-bit words from a byte list. -/
def bytesToWords : List Nat → List Nat
  | b0 :: b1 :: b2 :: b3 :: rest =>
    ((((b0 <<< 8) ||| b1) <<< 8 ||| b2) <<< 8 ||| b3) :: bytesToWords rest
  | _ => []

/-- Fuel-indexed split into 64-byte blocks (the fuel is the byte count, so
it never runs out on a padded message). -/
def chunk64Aux : Nat → List Nat → List (List Nat)
  | 0, _ => []
  | _ + 1, [] => []
  | fuel + 1, b :: bs => (b :: bs).take 64 :: chunk64Aux fuel ((b :: bs).drop 64)

/-- Split into 64-byte blocks. -/
def chunk64 (bs : List Nat) : List (List Nat) := chunk64Aux bs.length bs

/-- The SHA-256 round constants of FIPS 180-4 (the first 32 bits of the
fractional parts of the cube roots of the first 64 primes), written in
decimal; the standard test vectors proved below pin them down. -/
def shaK : List Nat :=
  [1116352408, 1899447441, 3049323471, 3921009573, 961987163, 1508970993,
   2453635748, 2870763221, 3624381080, 310598401, 607225278, 1426881987,
   1925078388, 2162078206, 2614888103, 3248222580, 3835390401, 4022224774,
   264347078, 604807628, 770255983, 1249150122, 1555081692, 1996064986,
   2554220882, 2821834349, 2952996808, 3210313671, 3336571891, 3584528711,
   113926993, 338241895, 666307205, 773529912, 1294757372, 1396182291,
   1695183700, 1986661051, 2177026350, 2456956037, 2730485921, 2820302411,
   3259730800, 3345764771, 3516065817, 3600352804, 4094571909, 275423344,
   430227734, 506948616, 659060556, 883997877, 958139571, 1322822218,
   1537002063, 1747873779, 1955562222, 2024104815, 2227730452, 2361852424,
   2428436474, 2756734187, 3204031479, 3329325298]

/-- The SHA-256 initial hash values of FIPS 180-4, in decimal. -/
def shaH0 : List Nat :=
  [1779033703, 3144134277, 1013904242, 2773480762,
   1359893119, 2600822924, 528734635, 1541459225]

/-- The next word of the SHA-256 message schedule, from the words built so
far. -/
def shaExtendStep (w : List Nat) : Nat :=
  let n := w.length
  let x0 := w.getD (n - 15) 0
  let s0 := rotr32 7 x0 ^^^ rotr32 18 x0 ^^^ (x0 >>> 3)
  let x1 := w.getD (n - 2) 0
  let s1 := rotr32 17 x1 ^^^ rotr32 19 x1 ^^^ (x1 >>> 10)
  w32 (w.getD (n - 16) 0 + s0 + w.getD (n - 7) 0 + s1)

/-- Extends the 16 block words to the 64-word message schedule. -/
def shaExtend : Nat → List Nat → List Nat
  | 0, w => w
  | n + 1, w => shaExtend n (w ++ [shaExtendStep w])

/-- The eight working variables of the SHA-256 compression loop. -/
structure ShaState where
  a : Nat
  b : Nat
  c : Nat
  d : Nat
  e : Nat
  f : Nat
  g : Nat
  h : Nat

/-- One SHA-256 compression round for a (round constant, schedule word)
pair. -/
def shaRound (st : ShaState) (kw : Nat × Nat) : ShaState :=
  let bigS1 := rotr32 6 st.e ^^^ rotr32 11 st.e ^^^ rotr32 25 st.e
  let ch := (st.e &&& st.f) ^^^ ((st.e ^^^ 0xffffffff) &&& st.g)
  let temp1 := w32 (st.h + bigS1 + ch + kw.1 + kw.2)
  let bigS0 := rotr32 2 st.a ^^^ rotr32 13 st.a ^^^ rotr32 22 st.a
  let maj := (st.a &&& st.b) ^^^ (st.a &&& st.c) ^^^ (st.b &&& st.c)
  let temp2 := w32 (bigS0 + maj)
  ⟨w32 (temp1 + temp2), st.a, st.b, st.c, w32 (st.d + temp1), st.e, st.f, st.g⟩

/-- Compression of one 64-byte block into the running hash. -/
def shaCompress (hs : List Nat) (block : List Nat) : List Nat :=
  let ws := shaExtend 48 (bytesToWords block)
  let init : ShaState := ⟨hs.getD 0 0, hs.getD 1 0, hs.getD 2 0, hs.getD 3 0,
    hs.getD 4 0, hs.getD 5 0, hs.getD 6 0, hs.getD 7 0⟩
  let fin := (shaK.zip ws).foldl shaRound init
  [w32 (hs.getD 0 0 + fin.a), w32 (hs.getD 1 0 + fin.b), w32 (hs.getD 2 0 + fin.c),
   w32 (hs.getD 3 0 + fin.d), w32 (hs.getD 4 0 + fin.e), w32 (hs.getD 5 0 + fin.f),
   w32 (hs.getD 6 0 + fin.g), w32 (hs.getD 7 0 + fin.h)]

/-- The SHA-256 digest of a string's UTF-8 bytes, as eight 32-bit words. -/
def sha256Words (s : String) : List Nat :=
  (chunk64 (shaPad (stringUtf8 s))).foldl shaCompress shaH0

/-- Lowercase hex digit. -/
def hexDigit (n : Nat) : Char := "0123456789abcdef".data.getD n '0'

/-- Lowercase hex rendering of one 32-bit word. -/
def wordToHex (w : Nat) : List Char :=
  [hexDigit ((w >>> 28) &&& 0xf), hexDigit ((w >>> 24) &&& 0xf),
   hexDigit ((w >>> 20) &&& 0xf), hexDigit ((w >>> 16) &&& 0xf),
   hexDigit ((w >>> 12) &&& 0xf), hexDigit ((w >>> 8) &&& 0xf),
   hexDigit ((w >>> 4) &&& 0xf), hexDigit (w &&& 0xf)]

/-- The SHA-256 digest of a string, as the lowercase hex string that
`digest("hex")` produces. -/
def sha256Hex (s : String) : String := String.mk ((sha256Words s).flatMap wordToHex)

/-- The source's `hashKey`:
`crypto.createHash("sha256").update(JSON.stringify(input)).digest("hex")`.
The stable serialization `JSON.stringify(input)` is passed in as
`serializedInput` (byte-identical cache-key input means this string is
identical); the digest step is embedded in full: SHA-256 over the
string's UTF-8 bytes, rendered in lowercase hex. -/
def hashKey (serializedInput : String) : String := sha256Hex serializedInput

/-- Result of one cached remote invocation: outcome, updated cache, and
the number of network dispatches (0 or 1). -/
structure CachedCallResult (V : Type) where
  outcome : Except String V
  cache : List (String × V)
  dispatches : Nat
deriving Repr

/-- The cache discipline shared by `callOpenAI` and `summarizeGroup`: the
cache is consulted exactly once, before dispatch; a hit returns the
cached value with no dispatch; otherwise the remote computation runs (its
`.error` models a thrown exception, which is propagated without storing
anything), and only a successful result is stored. -/
def cachedCall {V : Type} (cache : List (String × V)) (key : String)
    (compute : Except String V) : CachedCallResult V :=
  match getCache cache key with
  | some v => ⟨.ok v, cache, 0⟩
  | none =>
    match compute with
    | .ok v => ⟨.ok v, setCache cache key v, 1⟩
    | .error e => ⟨.error e, cache, 1⟩

/-! ## Properties of the CSV parser -/

theorem encodeQuoted_cons (c : Char) (s : List Char) :
    encodeQuoted (c :: s) =
      (if c = quoteChar then [quoteChar, quoteChar] else [c]) ++ encodeQuoted s := by
  simp [encodeQuoted]

theorem parseCsvAux_quoted (s : List Char) :
    ∀ (rest : List Char) (rows : List CsvRow) (row : CsvRow) (field : CsvField),
      rest.head? ≠ some quoteChar →
      parseCsvAux (encodeQuoted s ++ quoteChar :: rest) rows row field true =
        parseCsvAux rest rows row (field ++ s) false := by
  induction s with
  | nil =>
    intro rest rows row field hrest
    cases rest with
    | nil => simp [encodeQuoted, parseCsvAux]
    | cons c2 rest2 =>
      have hc2 : ¬ c2 = quoteChar := by
        intro h; exact hrest (by simp [h])
      simp [encodeQuoted, parseCsvAux, hc2]
  | cons c s ih =>
    intro rest rows row field hrest
    rw [encodeQuoted_cons]
    by_cases hc : c = quoteChar
    · subst hc
      rw [if_pos rfl]
      simp only [List.cons_append, List.append_assoc, List.nil_append]
      rw [show parseCsvAux
            (quoteChar :: (quoteChar :: (encodeQuoted s ++ quoteChar :: rest))) rows row field true =
          parseCsvAux (encodeQuoted s ++ quoteChar :: rest) rows row (field ++ [quoteChar]) true from by
        simp [parseCsvAux]]
      rw [ih rest rows row (field ++ [quoteChar]) hrest]
      simp
    · rw [if_neg hc]
      simp only [List.cons_append, List.append_assoc, List.nil_append]
      rw [show parseCsvAux (c :: (encodeQuoted s ++ quoteChar :: rest)) rows row field true =
          parseCsvAux (encodeQuoted s ++ quoteChar :: rest) rows row (field ++ [c]) true from by
        rw [parseCsvAux.eq_def]; simp [hc]]
      rw [ih rest rows row (field ++ [c]) hrest]
      simp

/-- C1: parseCsv treats a double-quoted field as one field — commas and
line breaks between the opening and closing quote stay literal field
content and each doubled quote decodes to one quote character (first
conjunct, stated for any parser state and any continuation not starting
with a quote), and a whole-input quoted field with non-empty body `s`
parses to exactly one row holding exactly the field `s`; in particular
the input consisting of `a,b` newline `c` wrapped in quotes parses to one
row with that single field (obtained by instantiating `s`). -/
theorem claim_C1 (s : List Char) (hs : s ≠ [])
    (rest : List Char) (rows : List CsvRow) (row : CsvRow) (field : CsvField)
    (hrest : rest.head? ≠ some quoteChar) :
    (parseCsvAux (encodeQuoted s ++ quoteChar :: rest) rows row field true =
        parseCsvAux rest rows row (field ++ s) false)
    ∧ parseCsv (quoteWrap s) = [[String.mk s]] := by
  constructor
  · exact parseCsvAux_quoted s rest rows row field hrest
  · show (parseCsvRows (quoteWrap s)).map (fun r => r.map String.mk) = [[String.mk s]]
    have h1 : parseCsvRows (quoteWrap s) = [[s]] := by
      show parseCsvAux (quoteChar :: (encodeQuoted s ++ [quoteChar])) [] [] [] false = [[s]]
      rw [show parseCsvAux (quoteChar :: (encodeQuoted s ++ [quoteChar])) [] [] [] false =
          parseCsvAux (encodeQuoted s ++ [quoteChar]) [] [] [] true from by
        rw [parseCsvAux.eq_def]; simp]
      rw [show (encodeQuoted s ++ [quoteChar] : List Char) =
          encodeQuoted s ++ quoteChar :: [] from rfl]
      rw [parseCsvAux_quoted s [] [] [] [] (by simp)]
      simp [parseCsvAux, csvRowKeep, hs]
    rw [h1]
    simp

theorem claim_C1_witness :
    parseCsv "\"a,b\nc\"" = [["a,b\nc"]] ∧ "a,b\nc".data ≠ ([] : List Char) := by
  refine ⟨?_, by decide⟩
  exact (claim_C1 "a,b\nc".data (by decide) [] [] [] [] (by decide)).2

/-- C10: outside quotes, a lone carriage return (one not followed by a
newline) terminates the current row exactly as a newline does — in any
parser state, scanning from a bare CR is the same as scanning from an LF
— so bare-CR input splits into multiple rows just like LF or CRLF
input. -/
theorem claim_C10 :
    (∀ (rest : List Char) (rows : List CsvRow) (row : CsvRow) (field : CsvField),
        rest.head? ≠ some '\n' →
        parseCsvAux ('\r' :: rest) rows row field false =
          parseCsvAux ('\n' :: rest) rows row field false)
    ∧ parseCsv "a,b\rc,d" = [["a", "b"], ["c", "d"]]
    ∧ parseCsv "a,b\rc,d" = parseCsv "a,b\nc,d"
    ∧ parseCsv "a,b\rc,d" = parseCsv "a,b\r\nc,d" := by
  refine ⟨?_, by decide, by decide, by decide⟩
  intro rest rows row field hrest
  cases rest with
  | nil =>
    simp [parseCsvAux, (show ¬ ('\x0d' : Char) = quoteChar by decide),
      (show ¬ ('\n' : Char) = quoteChar by decide)]
  | cons c2 rest2 =>
    have hc2 : ¬ c2 = '\n' := by
      intro h; exact hrest (by simp [h])
    simp [parseCsvAux, hc2, (show ¬ ('\x0d' : Char) = quoteChar by decide),
      (show ¬ ('\n' : Char) = quoteChar by decide)]

theorem claim_C10_witness :
    parseCsvAux ('\r' :: ['x']) [] [] [] false = parseCsvAux ('\n' :: ['x']) [] [] [] false ∧
      parseCsv "a,b\rc,d" = [["a", "b"], ["c", "d"]] := by
  exact ⟨claim_C10.1 ['x'] [] [] [] (by decide), claim_C10.2.1⟩

/-! ## Error handling of the CSV load -/

/-- C3: `fetchCsvPosts` converts every failure into a value, never a
thrown error (its embedding is a total function into `FetchResult`): any
read failure yields the empty post list plus a warning describing the
failure, and a file whose content parses to no rows yields the empty list
plus the emptiness warning. -/
theorem claim_C3 :
    (∀ (msg : String) (freshIds : Nat → String),
        fetchCsvPosts (.error msg) freshIds =
          { threads := [], warning := some ("Failed to read CSV (" ++ msg ++ ").") })
    ∧ (∀ (csv : String) (freshIds : Nat → String), parseCsv csv = [] →
        fetchCsvPosts (.ok csv) freshIds =
          { threads := [], warning := some "CSV file is empty." }) := by
  constructor
  · intro msg freshIds; rfl
  · intro csv freshIds h
    simp [fetchCsvPosts, h]

theorem claim_C3_witness :
    fetchCsvPosts (.error "ENOENT") (fun _ => "u") =
        { threads := [], warning := some "Failed to read CSV (ENOENT)." } ∧
      parseCsv "" = [] ∧
      fetchCsvPosts (.ok "") (fun _ => "u") =
        { threads := [], warning := some "CSV file is empty." } := by
  refine ⟨claim_C3.1 "ENOENT" (fun _ => "u"), by decide, ?_⟩
  exact claim_C3.2 "" (fun _ => "u") (by decide)

/-! ## Record building -/

theorem buildRecordFold_domain (header row : List String) :
    ∀ (n : Nat) (k : String),
      ((List.range n).foldl (buildRecordStep header row) (fun _ => none)) k ≠ none →
      ∃ i, i < n ∧ header[i]? = some k ∧ k ≠ "" := by
  intro n
  induction n with
  | zero => intro k h; simp at h
  | succ n ih =>
    intro k h
    rw [List.range_succ, List.foldl_append, List.foldl_cons, List.foldl_nil] at h
    cases hg : header[n]? with
    | none =>
      simp only [buildRecordStep, hg] at h
      obtain ⟨i, hi, h1, h2⟩ := ih k h
      exact ⟨i, by omega, h1, h2⟩
    | some key =>
      by_cases hke : key = ""
      · simp only [buildRecordStep, hg, if_pos hke] at h
        obtain ⟨i, hi, h1, h2⟩ := ih k h
        exact ⟨i, by omega, h1, h2⟩
      · simp only [buildRecordStep, hg, if_neg hke] at h
        by_cases hkk : k = key
        · exact ⟨n, by omega, by rw [hg, hkk], by rw [hkk]; exact hke⟩
        · simp only [if_neg hkk] at h
          obtain ⟨i, hi, h1, h2⟩ := ih k h
          exact ⟨i, by omega, h1, h2⟩

theorem buildRecordFold_lastWrite (header row : List String) :
    ∀ (n j : Nat) (k : String), j < n → header[j]? = some k → k ≠ "" →
      (∀ j2, j < j2 → j2 < n → header[j2]? ≠ some k) →
      ((List.range n).foldl (buildRecordStep header row) (fun _ => none)) k =
        some (row.getD j "") := by
  intro n
  induction n with
  | zero => intro j k hj; exact absurd hj (by omega)
  | succ n ih =>
    intro j k hj hg hk hlast
    rw [List.range_succ, List.foldl_append, List.foldl_cons, List.foldl_nil]
    by_cases hjn : j = n
    · subst hjn
      simp [buildRecordStep, hg, if_neg hk]
    · have hj' : j < n := by omega
      have hne : header[n]? ≠ some k := hlast n (by omega) (by omega)
      have tail := ih j k hj' hg hk (fun j2 a b => hlast j2 a (by omega))
      cases hgn : header[n]? with
      | none => simp only [buildRecordStep, hgn]; exact tail
      | some key =>
        by_cases hke : key = ""
        · simp only [buildRecordStep, hgn, if_pos hke]; exact tail
        · have hkk : ¬ k = key := by
            intro h2; exact hne (by rw [hgn, h2])
          simp only [buildRecordStep, hgn, if_neg hke, if_neg hkk]
          exact tail

/-- C4 (amended): the field dictionary built for a row binds header name
`i` to column `i` of the row positionally; row fields beyond the header
length are ignored (taking the row to the header length changes nothing);
every bound key is a non-empty header name; and for a row shorter than
the header, the missing trailing columns' keys are bound to the empty
string — present in the dictionary, not absent as the claim states. -/
theorem claim_C4 (header row : List String) :
    buildRecordFields header row = buildRecordFields header (row.take header.length)
    ∧ (∀ k, buildRecordFields header row k ≠ none → k ∈ header ∧ k ≠ "")
    ∧ (header.Nodup → ∀ i, ∀ hi : i < header.length, header.get ⟨i, hi⟩ ≠ "" →
        buildRecordFields header row (header.get ⟨i, hi⟩) = some (row.getD i ""))
    ∧ (header.Nodup → ∀ i, ∀ hi : i < header.length, header.get ⟨i, hi⟩ ≠ "" →
        row.length ≤ i →
        buildRecordFields header row (header.get ⟨i, hi⟩) = some "") := by
  have key_at : ∀ (i : Nat) (hi : i < header.length),
      header[i]? = some (header.get ⟨i, hi⟩) := by
    intro i hi
    rw [List.getElem?_eq_getElem hi]
    simp [List.get_eq_getElem]
  have main : header.Nodup → ∀ i, ∀ hi : i < header.length, header.get ⟨i, hi⟩ ≠ "" →
      buildRecordFields header row (header.get ⟨i, hi⟩) = some (row.getD i "") := by
    intro hnd i hi hne
    apply buildRecordFold_lastWrite header row header.length i _ hi (key_at i hi) hne
    intro j2 hlt hj2 heq
    have : i = j2 := List.getElem?_inj hi hnd (by rw [key_at i hi, heq])
    omega
  refine ⟨?_, ?_, main, ?_⟩
  · unfold buildRecordFields
    apply List.foldl_ext
    intro acc i hi
    have hilt : i < header.length := List.mem_range.mp hi
    unfold buildRecordStep
    cases header[i]? with
    | none => rfl
    | some key =>
      by_cases hke : key = ""
      · simp [hke]
      · simp [hke, List.getElem?_take_of_lt hilt]
  · intro k h
    obtain ⟨i, hi, h1, h2⟩ := buildRecordFold_domain header row header.length k h
    exact ⟨List.getElem?_mem h1, h2⟩
  · intro hnd i hi hne hrow
    rw [main hnd i hi hne, List.getD_eq_default _ _ hrow]

/-- C4 counterexample: for header `[a, b]` and the one-field row `[x]`,
the dictionary binds the missing trailing key `b` to the empty string —
it is not absent, refuting the claim as stated. -/
theorem claim_C4_counterexample :
    buildRecordFields ["a", "b"] ["x"] "b" = some "" ∧
      ¬ buildRecordFields ["a", "b"] ["x"] "b" = none := by
  constructor
  · decide
  · decide

theorem claim_C4_witness :
    buildRecordFields ["a", "b"] ["x", "y", "z"] "b" = some "y" ∧
      buildRecordFields ["a", "b"] ["x"] "b" = some "" ∧
      buildRecordFields ["a", "b"] ["x"] =
        buildRecordFields ["a", "b"] (["x"].take (["a", "b"] : List String).length) := by
  refine ⟨?_, ?_, (claim_C4 ["a", "b"] ["x"]).1⟩
  · exact (claim_C4 ["a", "b"] ["x", "y", "z"]).2.2.1 (by decide) 1 (by decide) (by decide)
  · exact (claim_C4 ["a", "b"] ["x"]).2.2.2 (by decide) 1 (by decide) (by decide) (by decide)

/-! ## Grouping: model-bucket size threshold -/

/-- Concrete post used in grouping instances: `base_model:x`, id `a`. -/
def postA : Post := { id := "a", title := "t", tags := some ["base_model:x"] }

/-- Concrete post used in grouping instances: `base_model:x`, id `b`. -/
def postB : Post := { id := "b", title := "t", tags := some ["base_model:x"] }

/-- Concrete post used in grouping instances: `base_model:y`, id `c`. -/
def postC : Post := { id := "c", title := "t", tags := some ["base_model:y"] }

/-- Concrete post used in grouping instances: `hw:7`, id `d`. -/
def postD : Post := { id := "d", title := "t", tags := some ["hw:7"] }

/-- C6: every bucket in the `modelGroups` map returned by grouping has at
least 2 posts (for any input); concretely, a model bucket with exactly 2
members survives, a model bucket with exactly 1 member is deleted before
the result is returned, and `homeworkGroups` keeps buckets of every size,
including a size-1 bucket. -/
theorem claim_C6 (threads : List Post) (k : String) (items : List Post)
    (hmem : (k, items) ∈ (groupThreads threads).modelGroups) :
    2 ≤ items.length
    ∧ (groupThreads [postA, postB]).modelGroups = [("model:x", [postA, postB])]
    ∧ (groupThreads [postC]).modelGroups = []
    ∧ (groupThreads [postD]).homeworkGroups = [("hw:7", [postD])] := by
  refine ⟨?_, by decide, by decide, by decide⟩
  have hmem2 : (k, items) ∈
      ((threads.foldl groupStep ⟨[], []⟩).m.filter
        (fun e => decide (2 ≤ e.2.length))) := hmem
  have h2 := List.of_mem_filter hmem2
  simpa using h2

theorem claim_C6_witness :
    (("model:x", [postA, postB]) ∈ (groupThreads [postA, postB]).modelGroups) ∧
      2 ≤ ([postA, postB] : List Post).length := by
  refine ⟨by decide, ?_⟩
  exact (claim_C6 [postA, postB] "model:x" [postA, postB] (by decide)).1

/-! ## Retry loop of the chat-completion wrapper -/

theorem chatAux_requests_le (responses : Nat → HttpResponse) (jit : Nat → Nat) :
    ∀ (remaining attempt : Nat),
      (chatAux responses jit attempt remaining).requests ≤ remaining := by
  intro remaining
  induction remaining with
  | zero => intro attempt; simp [chatAux]
  | succ n ih =>
    intro attempt
    by_cases h1 : respOk (responses attempt) = true
    · cases hc : (responses attempt).content <;> simp [chatAux, h1, hc]
    · by_cases h2 : retryableStatus (responses attempt).status = true
      · simp only [chatAux, h1, if_false, Bool.not_eq_true] at *
        simp [h1, h2]
        have := ih (attempt + 1)
        omega
      · simp [chatAux, h1, h2]

theorem chatAux_before_last (responses : Nat → HttpResponse) (jit : Nat → Nat) :
    ∀ (remaining attempt d : Nat),
      d + 1 < (chatAux responses jit attempt remaining).requests →
      respOk (responses (attempt + d)) = false ∧
        retryableStatus (responses (attempt + d)).status = true := by
  intro remaining
  induction remaining with
  | zero => intro attempt d h; simp [chatAux] at h
  | succ n ih =>
    intro attempt d h
    by_cases h1 : respOk (responses attempt) = true
    · cases hc : (responses attempt).content <;> simp [chatAux, h1, hc] at h
    · by_cases h2 : retryableStatus (responses attempt).status = true
      · cases d with
        | zero =>
          refine ⟨by simpa using h1, by simpa using h2⟩
        | succ d2 =>
          have h' : d2 + 1 < (chatAux responses jit (attempt + 1) n).requests := by
            simp [chatAux, h1, h2] at h
            omega
          have hres := ih (attempt + 1) d2 h'
          have e : attempt + (d2 + 1) = attempt + 1 + d2 := by omega
          rw [e]
          exact hres
      · simp [chatAux, h1, h2] at h

theorem chatAux_sleeps_spec (responses : Nat → HttpResponse) (jit : Nat → Nat) :
    ∀ (remaining attempt : Nat),
      (chatAux responses jit attempt remaining).sleeps.length ≤
          (chatAux responses jit attempt remaining).requests ∧
        ∀ i, ∀ h : i < (chatAux responses jit attempt remaining).sleeps.length,
          (chatAux responses jit attempt remaining).sleeps.get ⟨i, h⟩ =
            sleepFor (responses (attempt + i)) (attempt + i) (jit (attempt + i)) ∧
          retryableStatus (responses (attempt + i)).status = true ∧
          respOk (responses (attempt + i)) = false := by
  intro remaining
  induction remaining with
  | zero =>
    intro attempt
    refine ⟨by simp [chatAux], ?_⟩
    intro i h
    simp [chatAux] at h
  | succ n ih =>
    intro attempt
    by_cases h1 : respOk (responses attempt) = true
    · refine ⟨?_, ?_⟩
      · cases hc : (responses attempt).content <;> simp [chatAux, h1, hc]
      · intro i h
        cases hc : (responses attempt).content <;> simp [chatAux, h1, hc] at h
    · by_cases h2 : retryableStatus (responses attempt).status = true
      · refine ⟨?_, ?_⟩
        · simp only [chatAux, h1, h2]
          simp [h1, h2]
          have := (ih (attempt + 1)).1
          omega
        · intro i h
          cases i with
          | zero =>
            simp [chatAux, h1, h2]
          | succ i2 =>
            have h' : i2 < (chatAux responses jit (attempt + 1) n).sleeps.length := by
              simp [chatAux, h1, h2] at h
              omega
            have hres := (ih (attempt + 1)).2 i2 h'
            have e : attempt + (i2 + 1) = attempt + 1 + i2 := by omega
            rw [e]
            refine ⟨?_, hres.2.1, hres.2.2⟩
            have : (chatAux responses jit attempt (n + 1)).sleeps =
                sleepFor (responses attempt) attempt (jit attempt) ::
                  (chatAux responses jit (attempt + 1) n).sleeps := by
              simp [chatAux, h1, h2]
            rw [List.get_of_eq this]
            simpa using hres.1
      · refine ⟨by simp [chatAux, h1, h2], ?_⟩
        intro i h
        simp [chatAux, h1, h2] at h

theorem chatAux_continues (responses : Nat → HttpResponse) (jit : Nat → Nat) :
    ∀ (remaining attempt k : Nat),
      (∀ d, d < k → respOk (responses (attempt + d)) = false ∧
        retryableStatus (responses (attempt + d)).status = true) →
      min (k + 1) remaining ≤ (chatAux responses jit attempt remaining).requests := by
  intro remaining
  induction remaining with
  | zero => intro attempt k _; simp
  | succ n ih =>
    intro attempt k hall
    cases k with
    | zero =>
      have : 1 ≤ (chatAux responses jit attempt (n + 1)).requests := by
        by_cases h1 : respOk (responses attempt) = true
        · cases hc : (responses attempt).content <;> simp [chatAux, h1, hc]
        · by_cases h2 : retryableStatus (responses attempt).status = true
          · simp [chatAux, h1, h2]
          · simp [chatAux, h1, h2]
      omega
    | succ k2 =>
      have h0 := hall 0 (by omega)
      rw [Nat.add_zero] at h0
      have hrec := ih (attempt + 1) k2 (fun d hd => by
        have := hall (d + 1) (by omega)
        rwa [show attempt + (d + 1) = attempt + 1 + d from by omega] at this)
      have hfalse : ¬ respOk (responses attempt) = true := by simp [h0.1]
      simp only [chatAux, hfalse, if_false, h0.2, if_true, Bool.not_eq_true]
      simp [h0.1, h0.2]
      omega

/-- C7 (amended): the wrapper retries exactly on HTTP 429 or 500-599 —
every attempt before the last had such a status, and as long as attempts
remain, such a status forces another attempt — bounded by the resolved
maximum attempt count (default 5, from `max(1, env ?? 5)`); before each
retry it sleeps the MAXIMUM of the retry-after header value (converted to
milliseconds, 0 when absent) and the exponential backoff
`min(30000, 600·2^(attempt-1) + jitter)` — not the header alone when one
is present, and the jitter draw is only ever added; any other non-2xx
status fails terminally with no retry and no sleep. -/
theorem claim_C7 (env : Option Int) (responses : Nat → HttpResponse) (jit : Nat → Nat) :
    (openaiChatCompletion env responses jit).requests ≤ (resolveMaxAttempts env).toNat
    ∧ resolveMaxAttempts none = 5
    ∧ (∀ d, d + 1 < (openaiChatCompletion env responses jit).requests →
        respOk (responses (1 + d)) = false ∧
          retryableStatus (responses (1 + d)).status = true)
    ∧ (openaiChatCompletion env responses jit).sleeps.length ≤
        (openaiChatCompletion env responses jit).requests
    ∧ (∀ i, ∀ h : i < (openaiChatCompletion env responses jit).sleeps.length,
        (openaiChatCompletion env responses jit).sleeps.get ⟨i, h⟩ =
          max (retryAfterMs (responses (1 + i)))
            (min 30000 (600 * 2 ^ i + (jit (1 + i) : Int)))
        ∧ retryableStatus (responses (1 + i)).status = true)
    ∧ (∀ k, (∀ d, d < k →
          respOk (responses (1 + d)) = false ∧
            retryableStatus (responses (1 + d)).status = true) →
        min (k + 1) (resolveMaxAttempts env).toNat ≤
          (openaiChatCompletion env responses jit).requests)
    ∧ (respOk (responses 1) = false → retryableStatus (responses 1).status = false →
        (openaiChatCompletion env responses jit).requests = 1 ∧
          (openaiChatCompletion env responses jit).sleeps = []) := by
  refine ⟨chatAux_requests_le responses jit _ 1, rfl,
    chatAux_before_last responses jit _ 1,
    (chatAux_sleeps_spec responses jit _ 1).1, ?_, chatAux_continues responses jit _ 1, ?_⟩
  · intro i h
    have hres := (chatAux_sleeps_spec responses jit (resolveMaxAttempts env).toNat 1).2 i h
    refine ⟨?_, hres.2.1⟩
    have goal_eq : (openaiChatCompletion env responses jit).sleeps.get ⟨i, h⟩ =
        (chatAux responses jit 1 (resolveMaxAttempts env).toNat).sleeps.get ⟨i, h⟩ := rfl
    rw [goal_eq, hres.1]
    show max (retryAfterMs (responses (1 + i)))
        (min 30000 (600 * 2 ^ (1 + i - 1) + (jit (1 + i) : Int))) = _
    have e : 1 + i - 1 = i := by omega
    rw [e]
  · intro hok hretry
    have hpos : 1 ≤ (resolveMaxAttempts env).toNat := by
      unfold resolveMaxAttempts
      omega
    cases hm : (resolveMaxAttempts env).toNat with
    | zero => omega
    | succ m =>
      have hfalse : ¬ respOk (responses 1) = true := by simp [hok]
      have hfalse2 : ¬ retryableStatus (responses 1).status = true := by simp [hretry]
      show (chatAux responses jit 1 (resolveMaxAttempts env).toNat).requests = 1 ∧
        (chatAux responses jit 1 (resolveMaxAttempts env).toNat).sleeps = []
      rw [hm]
      constructor <;> simp [chatAux, hfalse, hfalse2]

/-- Concrete response oracle for the retry instances: attempt 1 gets a
429 with a `retry-after: 0` header, every later attempt succeeds. -/
def c7Responses : Nat → HttpResponse := fun n =>
  if n = 1 then { status := 429, retryAfter := some 0 }
  else { status := 200, content := some "ok" }

/-- C7 counterexample: with a retry-after header present and worth 0 ms,
the wrapper sleeps 600 ms (the backoff), not the header's 0 ms — so it
does not sleep "according to the retry-after header when present"; it
sleeps the maximum of header value and backoff. -/
theorem claim_C7_counterexample :
    (openaiChatCompletion (some 5) c7Responses (fun _ => 0)).sleeps = [600]
    ∧ retryAfterMs (c7Responses 1) = 0
    ∧ (600 : Int) ≠ 0 := by
  refine ⟨by decide, by decide, by decide⟩

theorem claim_C7_witness :
    (openaiChatCompletion none c7Responses (fun _ => 0)).requests ≤
        (resolveMaxAttempts none).toNat
    ∧ min (1 + 1) (resolveMaxAttempts none).toNat ≤
        (openaiChatCompletion none c7Responses (fun _ => 0)).requests := by
  refine ⟨(claim_C7 none c7Responses (fun _ => 0)).1, ?_⟩
  apply (claim_C7 none c7Responses (fun _ => 0)).2.2.2.2.2.1 1
  intro d hd
  have hd0 : d = 0 := by omega
  subst hd0
  exact ⟨by decide, by decide⟩

/-! ## Cache discipline -/

theorem sha256Hex_empty_vector :
    sha256Hex "" = "e3b0c44298fc1c149afbf4c8996fb92427ae41e4649b934ca495991b7852b855" := by
  rfl

theorem sha256Hex_abc_vector :
    sha256Hex "abc" = "ba7816bf8f01cfea414140de5dae2223b00361a396177a9cb410ff61f20015ad" := by
  rfl

theorem sha256Hex_two_block_vector :
    sha256Hex "abcdbcdecdefdefgefghfghighijhijkijkljklmklmnlmnomnopnopq" =
      "248d6a61d20638b8e5c026930c3e6039a33ce45964ff2167f6ecedd419db06c1" := by
  rfl

theorem getCache_setCache {V : Type} (cache : List (String × V)) (key : String) (v : V) :
    getCache (setCache cache key v) key = some v := by
  induction cache with
  | nil => simp [getCache, setCache]
  | cons e c ih =>
    by_cases he : e.1 = key
    · simp [getCache, setCache, he]
    · have hne : (e.1 == key) = false := by
        simp [he]
      by_cases ha : c.any (fun e2 => e2.1 == key) = true
      · have h1 : setCache (e :: c) key v = e :: c.map (fun e2 => if e2.1 = key then (e2.1, v) else e2) := by
          simp [setCache, he, hne, ha]
        have h2 : setCache c key v = c.map (fun e2 => if e2.1 = key then (e2.1, v) else e2) := by
          simp [setCache, ha]
        rw [h1]
        rw [h2] at ih
        simpa [getCache, hne] using ih
      · have h1 : setCache (e :: c) key v = e :: (c ++ [(key, v)]) := by
          simp [setCache, he, hne, ha]
        have h2 : setCache c key v = c ++ [(key, v)] := by
          simp [setCache, ha]
        rw [h1]
        rw [h2] at ih
        simpa [getCache, hne] using ih

/-- C9 (amended): when the first invocation for a key misses the cache and
its remote computation succeeds, the result is stored under that key and
a second invocation with the byte-identical cache-key input performs no
dispatch and returns the stored value unchanged — so the two invocations
issue exactly one dispatch in total; moreover the outcome and dispatch of
an invocation depend on the cache only through the single lookup of its
key done before dispatch (nothing is consulted between retries).  A first
invocation that fails stores nothing, so a later identical invocation
dispatches again. -/
theorem claim_C9 {V : Type} (cache : List (String × V)) (input : String)
    (compute compute2 : Except String V) (v : V)
    (hmiss : getCache cache (hashKey input) = none)
    (hok : compute = .ok v) :
    (cachedCall cache (hashKey input) compute).outcome = .ok v
    ∧ (cachedCall cache (hashKey input) compute).dispatches = 1
    ∧ getCache (cachedCall cache (hashKey input) compute).cache (hashKey input) = some v
    ∧ (cachedCall (cachedCall cache (hashKey input) compute).cache
        (hashKey input) compute2).outcome = .ok v
    ∧ (cachedCall (cachedCall cache (hashKey input) compute).cache
        (hashKey input) compute2).dispatches = 0
    ∧ (cachedCall (cachedCall cache (hashKey input) compute).cache
        (hashKey input) compute2).cache = (cachedCall cache (hashKey input) compute).cache
    ∧ (cachedCall cache (hashKey input) compute).dispatches +
        (cachedCall (cachedCall cache (hashKey input) compute).cache
          (hashKey input) compute2).dispatches = 1
    ∧ (∀ cache2 : List (String × V),
        getCache cache2 (hashKey input) = getCache cache (hashKey input) →
        (cachedCall cache2 (hashKey input) compute).outcome =
            (cachedCall cache (hashKey input) compute).outcome ∧
          (cachedCall cache2 (hashKey input) compute).dispatches =
            (cachedCall cache (hashKey input) compute).dispatches) := by
  subst hok
  have h1 : cachedCall cache (hashKey input) (Except.ok v) =
      ⟨.ok v, setCache cache (hashKey input) v, 1⟩ := by
    simp [cachedCall, hmiss]
  have hstored := getCache_setCache cache (hashKey input) v
  have h2 : cachedCall (setCache cache (hashKey input) v) (hashKey input) compute2 =
      ⟨.ok v, setCache cache (hashKey input) v, 0⟩ := by
    simp [cachedCall, hstored]
  refine ⟨by rw [h1], by rw [h1], by rw [h1]; exact hstored,
    by rw [h1]; rw [h2], by rw [h1]; rw [h2], by rw [h1]; rw [h2],
    by rw [h1]; rw [h2]; rfl, ?_⟩
  intro cache2 heq
  rw [hmiss] at heq
  simp [cachedCall, hmiss, heq]

/-- C9 counterexample: two invocations with byte-identical cache-key
input issue two live dispatches when the first one fails — the failure is
not cached, so "at most one live network call" does not hold as stated. -/
theorem claim_C9_counterexample :
    (cachedCall ([] : List (String × Nat)) (hashKey "k") (.error "network failure")).dispatches +
        (cachedCall
          (cachedCall ([] : List (String × Nat)) (hashKey "k") (.error "network failure")).cache
          (hashKey "k") (.error "network failure")).dispatches = 2 := by
  decide

theorem claim_C9_witness :
    (cachedCall ([] : List (String × Nat)) (hashKey "serialized-sample") (.ok 42)).dispatches +
        (cachedCall
          (cachedCall ([] : List (String × Nat)) (hashKey "serialized-sample") (.ok 42)).cache
          (hashKey "serialized-sample") (.ok 99)).dispatches = 1 ∧
      (cachedCall
          (cachedCall ([] : List (String × Nat)) (hashKey "serialized-sample") (.ok 42)).cache
          (hashKey "serialized-sample") (.ok 99)).outcome = .ok 42 := by
  refine ⟨?_, ?_⟩
  · exact (claim_C9 [] "serialized-sample" (.ok 42) (.ok 99) 42 (by decide) rfl).2.2.2.2.2.2.1
  · exact (claim_C9 [] "serialized-sample" (.ok 42) (.ok 99) 42 (by decide) rfl).2.2.2.1

/-! ## Deduplication by id -/

theorem dedupeByIdAux_not_seen (l : List Post) :
    ∀ (seen : List String), ∀ q ∈ dedupeByIdAux seen l, q.id ∉ seen := by
  induction l with
  | nil => intro seen q hq; simp [dedupeByIdAux] at hq
  | cons t rest ih =>
    intro seen q hq
    by_cases ht : t.id ∈ seen
    · rw [dedupeByIdAux, if_pos ht] at hq
      exact ih seen q hq
    · rw [dedupeByIdAux, if_neg ht] at hq
      rcases List.mem_cons.mp hq with hq | hq
      · rw [hq]; exact ht
      · have h2 := ih (t.id :: seen) q hq
        intro hs
        exact h2 (List.mem_cons_of_mem _ hs)

theorem dedupeByIdAux_nodup (l : List Post) :
    ∀ (seen : List String), ((dedupeByIdAux seen l).map (fun p => p.id)).Nodup := by
  induction l with
  | nil => intro seen; simp [dedupeByIdAux]
  | cons t rest ih =>
    intro seen
    by_cases ht : t.id ∈ seen
    · rw [dedupeByIdAux, if_pos ht]
      exact ih seen
    · rw [dedupeByIdAux, if_neg ht]
      rw [List.map_cons, List.nodup_cons]
      refine ⟨?_, ih (t.id :: seen)⟩
      intro hmem
      obtain ⟨q, hq, hid⟩ := List.mem_map.mp hmem
      have h2 := dedupeByIdAux_not_seen rest (t.id :: seen) q hq
      exact h2 (by rw [hid]; exact List.mem_cons_self _ _)

theorem dedupeByIdAux_sublist (l : List Post) :
    ∀ (seen : List String), (dedupeByIdAux seen l).Sublist l := by
  induction l with
  | nil => intro seen; simp [dedupeByIdAux]
  | cons t rest ih =>
    intro seen
    by_cases ht : t.id ∈ seen
    · rw [dedupeByIdAux, if_pos ht]
      exact List.Sublist.cons t (ih seen)
    · rw [dedupeByIdAux, if_neg ht]
      exact List.Sublist.cons₂ t (ih (t.id :: seen))

theorem dedupeByIdAux_covers (l : List Post) :
    ∀ (seen : List String), ∀ p ∈ l,
      p.id ∈ seen ∨ ∃ q ∈ dedupeByIdAux seen l, q.id = p.id := by
  induction l with
  | nil => intro seen p hp; simp at hp
  | cons t rest ih =>
    intro seen p hp
    by_cases ht : t.id ∈ seen
    · rw [dedupeByIdAux, if_pos ht]
      rcases List.mem_cons.mp hp with hp | hp
      · left; rw [hp]; exact ht
      · exact ih seen p hp
    · rw [dedupeByIdAux, if_neg ht]
      rcases List.mem_cons.mp hp with hp | hp
      · right; exact ⟨t, List.mem_cons_self _ _, by rw [hp]⟩
      · rcases ih (t.id :: seen) p hp with hseen | ⟨q, hq, hid⟩
        · rcases List.mem_cons.mp hseen with he | hs
          · right; exact ⟨t, List.mem_cons_self _ _, he.symm⟩
          · left; exact hs
        · right; exact ⟨q, List.mem_cons_of_mem _ hq, hid⟩

theorem dedupeByIdAux_first (l : List Post) :
    ∀ (seen : List String), ∀ q ∈ dedupeByIdAux seen l,
      l.find? (fun x => x.id == q.id) = some q := by
  induction l with
  | nil => intro seen q hq; simp [dedupeByIdAux] at hq
  | cons t rest ih =>
    intro seen q hq
    by_cases ht : t.id ∈ seen
    · rw [dedupeByIdAux, if_pos ht] at hq
      have hnot := dedupeByIdAux_not_seen rest seen q hq
      have hbe : (t.id == q.id) = false := by
        simp only [beq_eq_false_iff_ne, ne_eq]
        intro he
        exact hnot (by rw [← he]; exact ht)
      rw [show List.find? (fun x => x.id == q.id) (t :: rest) =
          List.find? (fun x => x.id == q.id) rest from by
        simp [List.find?_cons, hbe]]
      exact ih seen q hq
    · rw [dedupeByIdAux, if_neg ht] at hq
      rcases List.mem_cons.mp hq with hq | hq
      · rw [hq]
        simp [List.find?_cons]
      · have hnot := dedupeByIdAux_not_seen rest (t.id :: seen) q hq
        have hbe : (t.id == q.id) = false := by
          simp only [beq_eq_false_iff_ne, ne_eq]
          intro he
          exact hnot (by rw [← he]; exact List.mem_cons_self _ _)
        rw [show List.find? (fun x => x.id == q.id) (t :: rest) =
            List.find? (fun x => x.id == q.id) rest from by
          simp [List.find?_cons, hbe]]
        exact ih (t.id :: seen) q hq

/-- C2: the post list produced by `fetchCsvPosts` never contains two posts
with the same id — `dedupeById` keeps, in first-seen order, exactly the
first post of each id (it is an order-preserving sublist covering every
input id, and each survivor is the `find?`-first element of its id) — and
ingesting a CSV with two rows sharing `thread_id` `t1` yields exactly the
one post built from the first row, whatever UUIDs the fallback would
supply. -/
theorem claim_C2 (l : List Post) (readResult : Except String String)
    (freshIds : Nat → String) :
    ((dedupeById l).map (fun p => p.id)).Nodup
    ∧ (dedupeById l).Sublist l
    ∧ (∀ p ∈ l, ∃ q ∈ dedupeById l, q.id = p.id)
    ∧ (∀ q ∈ dedupeById l, l.find? (fun x => x.id == q.id) = some q)
    ∧ ((fetchCsvPosts readResult freshIds).threads.map (fun p => p.id)).Nodup
    ∧ ((fetchCsvPosts (.ok "thread_id,title_clean\nt1,A\nt1,B") freshIds).threads.map
        (fun p => (p.id, p.title)) = [("t1", "A")]) := by
  refine ⟨dedupeByIdAux_nodup l [], dedupeByIdAux_sublist l [], ?_, dedupeByIdAux_first l [],
    ?_, ?_⟩
  · intro p hp
    rcases dedupeByIdAux_covers l [] p hp with hseen | h
    · simp at hseen
    · exact h
  · cases readResult with
    | error msg => simp [fetchCsvPosts]
    | ok csv =>
      cases hpp : parseCsv csv with
      | nil => simp [fetchCsvPosts, hpp]
      | cons header rest =>
        have hth : (fetchCsvPosts (.ok csv) freshIds).threads =
            dedupeById (((rest.map (fun row => buildRecord header row)).filterMap id).enum.map
              (fun p => toThread (freshIds p.1) p.2)) := by
          simp [fetchCsvPosts, hpp]
        rw [hth]
        exact dedupeByIdAux_nodup _ []
  · rfl

/-- Concrete post for the dedup witness: id `1`, title `x`. -/
def dupPostA : Post := { id := "1", title := "x" }

/-- Concrete post for the dedup witness: id `1`, title `y`. -/
def dupPostB : Post := { id := "1", title := "y" }

theorem claim_C2_witness :
    (∃ q ∈ dedupeById [dupPostA, dupPostB], q.id = dupPostB.id)
    ∧ ((fetchCsvPosts (.ok "thread_id,title_clean\nt1,A\nt1,B") (fun _ => "u")).threads.map
        (fun p => (p.id, p.title)) = [("t1", "A")]) := by
  refine ⟨?_, (claim_C2 [] (.ok "") (fun _ => "u")).2.2.2.2.2⟩
  exact (claim_C2 [dupPostA, dupPostB] (.error "") (fun _ => "u")).2.2.1 dupPostB (by decide)

/-! ## Group summarization: coverage of the sample -/

theorem summarizeGroup_posts_def (label key : String) (items : List Post) (content : String) :
    (summarizeGroupFromContent label key items content).posts =
      (decodedPosts content ++
        ((sampleOf items).filter
            (fun t => decide (t.id ∉ (decodedPosts content).map (fun q => q.id)))).map
          (fun t =>
            ({ id := t.id, title := t.title,
               takeaway := (if t.body = "" then "No body." else t.body).take 120 } :
              GroupPostSummary))).take
        (sampleOf items).length := rfl

/-- C8 (amended): the `GroupSummary` built from a model response consists
of the decoded entries followed by the sample posts whose ids the model
dropped (patched in with the first-120-character heuristic takeaway),
truncated to the sample size — the decoding slices from the first opening
brace to the LAST closing brace, not the first balanced span.  Whenever
the decoded entries carry pairwise-distinct ids drawn from the sample
(and the bucket posts have distinct ids, as buckets built by grouping
do), the result covers every sample post and has exactly the sample
size; in general it is merely capped at the sample size. -/
theorem claim_C8 (label key : String) (items : List Post) (content : String)
    (hsub : ∀ q ∈ decodedPosts content, q.id ∈ (sampleOf items).map (fun t => t.id))
    (hdec : ((decodedPosts content).map (fun q => q.id)).Nodup)
    (hsam : ((sampleOf items).map (fun t => t.id)).Nodup) :
    (summarizeGroupFromContent label key items content).posts.length = (sampleOf items).length
    ∧ (∀ t ∈ sampleOf items,
        ∃ e ∈ (summarizeGroupFromContent label key items content).posts, e.id = t.id)
    ∧ (∀ content2 : String,
        (summarizeGroupFromContent label key items content2).posts.length ≤
          (sampleOf items).length) := by
  have hDsub : (decodedPosts content).map (fun q => q.id) ⊆
      (sampleOf items).map (fun t => t.id) := by
    intro x hx
    obtain ⟨q, hq, hqe⟩ := List.mem_map.mp hx
    rw [← hqe]
    exact hsub q hq
  have hFnodup : (((sampleOf items).map (fun t => t.id)).filter
      (fun x => decide (x ∈ (decodedPosts content).map (fun q => q.id)))).Nodup :=
    List.Nodup.filter _ hsam
  have hFD : ((sampleOf items).map (fun t => t.id)).filter
      (fun x => decide (x ∈ (decodedPosts content).map (fun q => q.id))) ⊆
      (decodedPosts content).map (fun q => q.id) := by
    intro x hx
    have := List.of_mem_filter hx
    simpa using this
  have hDF : (decodedPosts content).map (fun q => q.id) ⊆
      ((sampleOf items).map (fun t => t.id)).filter
        (fun x => decide (x ∈ (decodedPosts content).map (fun q => q.id))) := by
    intro x hx
    exact List.mem_filter.mpr ⟨hDsub hx, by simpa using hx⟩
  have hlenF : (((sampleOf items).map (fun t => t.id)).filter
      (fun x => decide (x ∈ (decodedPosts content).map (fun q => q.id)))).length =
      ((decodedPosts content).map (fun q => q.id)).length :=
    Nat.le_antisymm (List.Subperm.length_le (List.Nodup.subperm hFnodup hFD))
      (List.Subperm.length_le (List.Nodup.subperm hdec hDF))
  have hmapf : ((sampleOf items).map (fun t => t.id)).filter
      (fun x => decide (x ∈ (decodedPosts content).map (fun q => q.id))) =
      ((sampleOf items).filter
        ((fun x => decide (x ∈ (decodedPosts content).map (fun q => q.id))) ∘
          (fun t => t.id))).map (fun t => t.id) :=
    List.map_filter _ _
  have hkept : ((sampleOf items).filter
      (fun t => decide (t.id ∈ (decodedPosts content).map (fun q => q.id)))).length =
      (decodedPosts content).length := by
    have h2 : ((sampleOf items).filter
        (fun t => decide (t.id ∈ (decodedPosts content).map (fun q => q.id)))).length =
        (((sampleOf items).map (fun t => t.id)).filter
          (fun x => decide (x ∈ (decodedPosts content).map (fun q => q.id)))).length := by
      rw [hmapf, List.length_map]
      rfl
    rw [h2, hlenF, List.length_map]
  have hsplit : (sampleOf items).length =
      ((sampleOf items).filter
        (fun t => decide (t.id ∈ (decodedPosts content).map (fun q => q.id)))).length +
      ((sampleOf items).filter
        (fun t => !(decide (t.id ∈ (decodedPosts content).map (fun q => q.id))))).length :=
    List.length_eq_length_filter_add _
  have hnotform : ((sampleOf items).filter
      (fun t => !(decide (t.id ∈ (decodedPosts content).map (fun q => q.id))))) =
      ((sampleOf items).filter
        (fun t => decide (t.id ∉ (decodedPosts content).map (fun q => q.id)))) := by
    simp only [decide_not]
  have hplen : ((decodedPosts content ++
      ((sampleOf items).filter
          (fun t => decide (t.id ∉ (decodedPosts content).map (fun q => q.id)))).map
        (fun t =>
          ({ id := t.id, title := t.title,
             takeaway := (if t.body = "" then "No body." else t.body).take 120 } :
            GroupPostSummary)))).length = (sampleOf items).length := by
    rw [List.length_append, List.length_map, ← hnotform]
    omega
  have hposts : (summarizeGroupFromContent label key items content).posts =
      decodedPosts content ++
        ((sampleOf items).filter
            (fun t => decide (t.id ∉ (decodedPosts content).map (fun q => q.id)))).map
          (fun t =>
            ({ id := t.id, title := t.title,
               takeaway := (if t.body = "" then "No body." else t.body).take 120 } :
              GroupPostSummary)) := by
    rw [summarizeGroup_posts_def, ← hplen, List.take_length]
  refine ⟨?_, ?_, ?_⟩
  · rw [hposts]
    exact hplen
  · intro t ht
    by_cases hid : t.id ∈ (decodedPosts content).map (fun q => q.id)
    · obtain ⟨q, hq, hqe⟩ := List.mem_map.mp hid
      refine ⟨q, ?_, hqe⟩
      rw [hposts]
      exact List.mem_append_left _ hq
    · refine
        ⟨{ id := t.id, title := t.title,
           takeaway := (if t.body = "" then "No body." else t.body).take 120 }, ?_, rfl⟩
      rw [hposts]
      apply List.mem_append_right
      apply List.mem_map_of_mem
      exact List.mem_filter.mpr ⟨ht, by simpa using hid⟩
  · intro content2
    rw [summarizeGroup_posts_def]
    rw [List.length_take]
    exact Nat.min_le_left _ _

/-- Concrete bucket post for the summarization instances. -/
def c8Item : Post := { id := "1", title := "T", body := some "hello world" }

/-- A model response whose only entry carries an id not in the sample. -/
def c8BadContent : String :=
  "\x7b\"overview\":\"o\",\"posts\":[\x7b\"id\":\"zz\",\"title\":\"t\",\"takeaway\":\"k\"\x7d]\x7d"

/-- A model response whose only entry matches the sample post. -/
def c8GoodContent : String :=
  "\x7b\"overview\":\"o\",\"posts\":[\x7b\"id\":\"1\",\"title\":\"T\",\"takeaway\":\"k\"\x7d]\x7d"

/-- C8 counterexample: a decoded entry with an id outside the sample
fills the size cap, so the sample post `1` is truncated away and the
result does NOT cover every sample post; and the decoder is not
"first balanced span" extraction — on a response holding a valid object
followed by a second object, the source's first-brace-to-last-brace slice
fails to parse while the first balanced span parses. -/
theorem claim_C8_counterexample :
    ¬ (∀ t ∈ sampleOf [c8Item],
        ∃ e ∈ (summarizeGroupFromContent "L" "K" [c8Item] c8BadContent).posts, e.id = t.id)
    ∧ safeParseJsonObject "\x7b\"a\":1\x7d \x7b\x7d" = none
    ∧ (safeParseJsonObjectSpec "\x7b\"a\":1\x7d \x7b\x7d").isSome = true := by
  refine ⟨by decide, rfl, rfl⟩

theorem claim_C8_witness :
    (summarizeGroupFromContent "L" "K" [c8Item] c8GoodContent).posts.length =
        (sampleOf [c8Item]).length
    ∧ (∀ t ∈ sampleOf [c8Item],
        ∃ e ∈ (summarizeGroupFromContent "L" "K" [c8Item] c8GoodContent).posts, e.id = t.id) := by
  have h := claim_C8 "L" "K" [c8Item] c8GoodContent (by decide) (by decide) (by decide)
  exact ⟨h.1, h.2.1⟩

/-! ## Grouping: hw-tag precedence -/

/-- Membership of a post in a named bucket of an insertion-ordered map. -/
def inBucket (m : List (String × List Post)) (k : String) (q : Post) : Prop :=
  ∃ e ∈ m, e.1 = k ∧ q ∈ e.2

theorem pushMapUniqueById_mono (m : List (String × List Post)) (k2 k : String)
    (p q : Post) (h : inBucket m k q) : inBucket (pushMapUniqueById m k2 p) k q := by
  obtain ⟨e, he, hek, hqe⟩ := h
  unfold pushMapUniqueById
  cases hf : m.find? (fun e2 => e2.1 == k2) with
  | none => exact ⟨e, List.mem_append_left _ he, hek, hqe⟩
  | some e0 =>
    by_cases hek2 : e.1 = k2
    · have himg : (fun e2 =>
          if e2.1 = k2 then
            (e2.1, if e2.2.any (fun r => r.id == p.id) then e2.2 else e2.2 ++ [p])
          else e2) e =
          (e.1, if e.2.any (fun r => r.id == p.id) then e.2 else e.2 ++ [p]) := by
        show (if e.1 = k2 then
            (e.1, if e.2.any (fun r => r.id == p.id) then e.2 else e.2 ++ [p])
          else e) = _
        rw [if_pos hek2]
      refine ⟨(e.1, if e.2.any (fun r => r.id == p.id) then e.2 else e.2 ++ [p]),
        himg ▸ List.mem_map_of_mem _ he, hek, ?_⟩
      by_cases hany : e.2.any (fun r => r.id == p.id) = true
      · rw [if_pos hany]; exact hqe
      · rw [if_neg hany]; exact List.mem_append_left _ hqe
    · have himg : (fun e2 =>
          if e2.1 = k2 then
            (e2.1, if e2.2.any (fun r => r.id == p.id) then e2.2 else e2.2 ++ [p])
          else e2) e = e := by
        show (if e.1 = k2 then
            (e.1, if e.2.any (fun r => r.id == p.id) then e.2 else e.2 ++ [p])
          else e) = _
        rw [if_neg hek2]
      exact ⟨e, himg ▸ List.mem_map_of_mem _ he, hek, hqe⟩

theorem pushMapUniqueById_self (m : List (String × List Post)) (k : String) (p : Post)
    (h : ∀ r : Post, inBucket m k r → r.id ≠ p.id) :
    inBucket (pushMapUniqueById m k p) k p := by
  unfold pushMapUniqueById
  cases hf : m.find? (fun e2 => e2.1 == k) with
  | none =>
    exact ⟨(k, [p]), List.mem_append_right _ (List.mem_cons_self _ _), rfl,
      List.mem_cons_self _ _⟩
  | some e0 =>
    have he0 : e0 ∈ m := List.mem_of_find?_eq_some hf
    have he0k : e0.1 = k := by
      have := List.find?_some hf
      simpa using this
    have hany : ¬ e0.2.any (fun r => r.id == p.id) = true := by
      intro hx
      obtain ⟨r, hr, hre⟩ := List.any_eq_true.mp hx
      exact h r ⟨e0, he0, he0k, hr⟩ (by simpa using hre)
    refine ⟨(e0.1, e0.2 ++ [p]), ?_, he0k, List.mem_append_right _ (List.mem_cons_self _ _)⟩
    have himg : (fun e2 =>
        if e2.1 = k then
          (e2.1, if e2.2.any (fun r => r.id == p.id) then e2.2 else e2.2 ++ [p])
        else e2) e0 = (e0.1, e0.2 ++ [p]) := by
      show (if e0.1 = k then
          (e0.1, if e0.2.any (fun r => r.id == p.id) then e0.2 else e0.2 ++ [p])
        else e0) = _
      rw [if_pos he0k, if_neg hany]
    rw [← himg]
    exact List.mem_map_of_mem _ he0

theorem pushMapUniqueById_members (m : List (String × List Post)) (k2 k : String)
    (p q : Post) (h : inBucket (pushMapUniqueById m k2 p) k q) :
    inBucket m k q ∨ q = p := by
  unfold pushMapUniqueById at h
  obtain ⟨e, he, hek, hqe⟩ := h
  revert he
  cases hf : m.find? (fun e2 => e2.1 == k2) with
  | none =>
    intro he
    rcases List.mem_append.mp he with he | he
    · exact Or.inl ⟨e, he, hek, hqe⟩
    · have he2 : e = (k2, [p]) := by simpa using he
      rw [he2] at hqe
      have : q = p := by simpa using hqe
      exact Or.inr this
  | some e0 =>
    intro he
    obtain ⟨e1, he1, hfe⟩ := List.mem_map.mp he
    have hfe2 : (if e1.1 = k2 then
        (e1.1, if e1.2.any (fun r => r.id == p.id) then e1.2 else e1.2 ++ [p])
      else e1) = e := hfe
    by_cases h1 : e1.1 = k2
    · rw [if_pos h1] at hfe2
      by_cases h2 : e1.2.any (fun r => r.id == p.id) = true
      · rw [if_pos h2] at hfe2
        rw [← hfe2] at hek hqe
        exact Or.inl ⟨e1, he1, hek, hqe⟩
      · rw [if_neg h2] at hfe2
        rw [← hfe2] at hek hqe
        rcases List.mem_append.mp hqe with hq2 | hq2
        · exact Or.inl ⟨e1, he1, hek, hq2⟩
        · exact Or.inr (by simpa using hq2)
    · rw [if_neg h1] at hfe2
      rw [← hfe2] at hek hqe
      exact Or.inl ⟨e1, he1, hek, hqe⟩

theorem groupStep_hw_mono (st : GroupState) (p : Post) (k : String) (q : Post)
    (h : inBucket st.hw k q) : inBucket (groupStep st p).hw k q := by
  show inBucket (match hwKeyValue p with
    | some v => pushMapUniqueById st.hw ("hw:" ++ v) p
    | none => st.hw) k q
  cases hwKeyValue p with
  | none => exact h
  | some v => exact pushMapUniqueById_mono st.hw ("hw:" ++ v) k p q h

theorem groupStep_hw_members (st : GroupState) (p : Post) (k : String) (q : Post)
    (h : inBucket (groupStep st p).hw k q) : inBucket st.hw k q ∨ q = p := by
  revert h
  show inBucket (match hwKeyValue p with
    | some v => pushMapUniqueById st.hw ("hw:" ++ v) p
    | none => st.hw) k q → _
  cases hwKeyValue p with
  | none => exact fun h => Or.inl h
  | some v => exact fun h => pushMapUniqueById_members st.hw ("hw:" ++ v) k p q h

theorem foldl_groupStep_hw_mono (l : List Post) :
    ∀ (st : GroupState) (k : String) (q : Post), inBucket st.hw k q →
      inBucket ((l.foldl groupStep st)).hw k q := by
  induction l with
  | nil => intro st k q h; exact h
  | cons p rest ih =>
    intro st k q h
    exact ih (groupStep st p) k q (groupStep_hw_mono st p k q h)

theorem foldl_groupStep_hw_members (l : List Post) :
    ∀ (st : GroupState) (k : String) (q : Post),
      inBucket ((l.foldl groupStep st)).hw k q → inBucket st.hw k q ∨ q ∈ l := by
  induction l with
  | nil => intro st k q h; exact Or.inl h
  | cons p rest ih =>
    intro st k q h
    rcases ih (groupStep st p) k q h with h2 | h2
    · rcases groupStep_hw_members st p k q h2 with h3 | h3
      · exact Or.inl h3
      · exact Or.inr (by rw [h3]; exact List.mem_cons_self _ _)
    · exact Or.inr (List.mem_cons_of_mem _ h2)

theorem groupThreads_hw_mem (threads : List Post) (p : Post) (v : String)
    (hnodup : (threads.map (fun x => x.id)).Nodup)
    (hmem : p ∈ threads) (hkey : hwKeyValue p = some v) :
    inBucket (groupThreads threads).homeworkGroups ("hw:" ++ v) p := by
  obtain ⟨s, t2, rfl⟩ := List.append_of_mem hmem
  show inBucket (((s ++ p :: t2).foldl groupStep ⟨[], []⟩)).hw ("hw:" ++ v) p
  rw [List.foldl_append, List.foldl_cons]
  apply foldl_groupStep_hw_mono
  have hstephw : (groupStep (s.foldl groupStep ⟨[], []⟩) p).hw =
      pushMapUniqueById (s.foldl groupStep ⟨[], []⟩).hw ("hw:" ++ v) p := by
    show (match hwKeyValue p with
      | some w => pushMapUniqueById (s.foldl groupStep ⟨[], []⟩).hw ("hw:" ++ w) p
      | none => (s.foldl groupStep ⟨[], []⟩).hw) = _
    rw [hkey]
  rw [hstephw]
  apply pushMapUniqueById_self
  intro r hr
  rcases foldl_groupStep_hw_members s ⟨[], []⟩ ("hw:" ++ v) r hr with h0 | hs
  · obtain ⟨e, he, _, _⟩ := h0
    simp at he
  · rw [List.map_append, List.map_cons] at hnodup
    have hdisj := (List.nodup_append.mp hnodup).2.2
    intro hre
    exact hdisj (List.mem_map_of_mem _ hs)
      (by rw [hre]; exact List.mem_cons_self _ _)

/-- C5 (amended): when a post carries an `hw:`-prefixed tag, the homework
key comes from the FIRST such tag alone: if the text after the tag's
first colon trims to a non-empty value `w` the post joins bucket `hw:w`
(given the distinct ids the ingestion pipeline guarantees), and if it
trims to empty the post joins no homework bucket; either way the key
depends only on the tags, never on title or body text, so a textual
"Assignment 5" cannot override `hw:3`; the text patterns are consulted
only when no `hw:` tag exists, in fixed priority order with the first
numeric capture winning — e.g. `hw-3` (pattern 2) beats `Assignment 5`
(pattern 4) even though both match. -/
theorem claim_C5 (threads : List Post) (p : Post) (t : String)
    (hmem : p ∈ threads)
    (hnodup : (threads.map (fun x => x.id)).Nodup)
    (htag : (p.tags.getD []).find? (fun t2 => startsWithStr (toLowerStr t2) "hw:") = some t) :
    (∀ w, tagValue t = some w → w ≠ "" →
        inBucket (groupThreads threads).homeworkGroups ("hw:" ++ w) p)
    ∧ hwKeyValue p = (match tagValue t with
        | some w => if w = "" then none else some w
        | none => none)
    ∧ (∀ q : Post, q.tags = p.tags → hwKeyValue q = hwKeyValue p)
    ∧ detectHomework "hw-3 and Assignment 5" = some "3" := by
  have hkey : hwKeyValue p = (match tagValue t with
      | some w => if w = "" then none else some w
      | none => none) := by
    unfold hwKeyValue
    rw [htag]
  refine ⟨?_, hkey, ?_, by decide⟩
  · intro w hw hne
    apply groupThreads_hw_mem threads p w hnodup hmem
    rw [hkey, hw]
    simp [hne]
  · intro q hq
    unfold hwKeyValue
    rw [hq, htag]

/-- Post with an `hw:` tag whose value is empty. -/
def pBadTag : Post :=
  { id := "x", title := "T", body := some "Assignment 5", tags := some ["hw:"] }

/-- C5 counterexample: a post carrying the tag `hw:` (which starts with
`hw:` but has an empty value) is assigned to NO homework bucket at all —
not to a bucket named by the tag — even though its body mentions
"Assignment 5", whose pattern is nonetheless never consulted. -/
theorem claim_C5_counterexample :
    (groupThreads [pBadTag]).homeworkGroups = []
    ∧ (pBadTag.tags.getD []).find?
        (fun t2 => startsWithStr (toLowerStr t2) "hw:") = some "hw:"
    ∧ detectHomework (textOf pBadTag) = some "5" := by
  refine ⟨by decide, by decide, by decide⟩

/-- Post with tag `hw:3` and a body mentioning a different assignment. -/
def pGoodTag : Post :=
  { id := "g", title := "T", body := some "Assignment 5", tags := some ["hw:3"] }

theorem claim_C5_witness :
    inBucket (groupThreads [pGoodTag]).homeworkGroups ("hw:" ++ "3") pGoodTag ∧
      detectHomework "hw-3 and Assignment 5" = some "3" := by
  have h := claim_C5 [pGoodTag] pGoodTag "hw:3" (by decide) (by decide) (by decide)
  exact ⟨h.1 "3" (by decide) (by decide), h.2.2.2⟩
